import Mathlib

/-!
# go-expression-analyzer: `analyzeFunc` and `main` (src/main.go)

A shallow embedding of `analyzeFunc`:

* the alignment-parsing loop (lines 73-85) and the annotation-parsing loop
  (lines 94-107), on the lines their scanners yield,
* the gene-length loop (lines 110-118),
* the loop that fills `uniquegenes` (lines 120-126),
* the counting loop that fills `geneExp` (lines 136-149),
* the RPK loop (lines 153-161),
* `sum`, `scale` and the expression loop (lines 163-187),

and of `main` (lines 28-33).  Opening the files and writing the table out are
not modelled: a run takes the contents of its two input files and gives the
table, or a panic.

Conventions of the embedding.

* Go `int` is a 64-bit two's-complement integer: values are `Int`, and every
  arithmetic result that can leave the range is wrapped with `wrap64`.
* A Go run-time panic (index out of range, integer division by zero) is an
  `Except.error` carrying a `Panic`.
* The struct fields `geneAlign.position`, `geneStruct.start` and
  `geneStruct.end` are declared `int` in the source, but every use of them
  treats them as text: they are assigned `strings.Split(...)[k]`, `position`
  is compared with a string key of `uniquegenes`, and `start` / `end` are
  handed to `strconv.Atoi`.  The embedding follows the uses: the fields hold
  strings.
* Misspelt identifiers of the source (`FRead` for `fRead`, `geneLength` for `genelength`,
  `geneAnnotationCapture` for `genomeAnnotationCapture`, `indexarray` for
  `arr`, `unqiuegenes` for `uniquegenes`, `expressionCount` for
  `expressCount`) are read as the variable they stand for.
* The call `strings.Split(string(line))` of line 100 lacks its separator and
  `strings.Hasprefix` is misspelt; they are read as `strings.Split(string(line), " ")`
  and `strings.HasPrefix`, the calls made everywhere else.
* A Go string is a sequence of bytes.  It is embedded as the `String` with one
  character per byte, which for ASCII text is the text itself; every test the
  code makes on strings (`==`, `strings.HasPrefix`, `strings.Split` on a space,
  the digit test of `strconv.Atoi`) and the buffer of a scanner work byte by
  byte.
* A `bufio.Scanner` is what `Scan` still has to yield: the lines before it
  next returns false, and what it holds in its buffer at that point.  After a
  line of 65,536 bytes or more `Scan` returns false with `ErrTooLong`, and the
  call after that yields the 65,536 buffered bytes as one more line.
* `for j := range uniquegenes` visits every key of the map once, in an order
  Go leaves unspecified and may change from one `range` statement to the
  next.  The counting loop therefore takes an iteration schedule
  `iter : Nat → List String`: `iter i` is the key sequence produced by the
  `range` statement executed for record `i`.
-/

namespace ExpressionAnalyzer

/-! ## Data model -/

/-- The run-time panics the modelled statements can raise. -/
inductive Panic where
  | indexOutOfRange
  | divideByZero
  deriving DecidableEq, Repr

deriving instance DecidableEq for Except

/-- The record type `type geneStruct struct { gene string; start int; end int }` (lines 50-54);
`end_` is the field `end`. -/
structure geneStruct where
  gene : String
  start : String
  end_ : String
  deriving DecidableEq, Repr

/-- The record type `type geneAlign struct { gene string; position int }` (lines 56-59). -/
structure geneAlign where
  gene : String
  position : String
  deriving DecidableEq, Repr

/-- The record type `type geneExpression struct { gene string; express int }` (lines 128-131). -/
structure geneExpression where
  gene : String
  express : Int
  deriving DecidableEq, Repr

/-- The record type `type expressCount struct { gene string; expressCount int }` (lines 175-178). -/
structure expressCount where
  gene : String
  expressCount : Int
  deriving DecidableEq, Repr

/-! ## Machine integers -/

/-- Reduction of an integer to the 64-bit two's-complement range
`[-2^63, 2^63)`. -/
def wrap64 (x : Int) : Int := (x + 2 ^ 63) % 2 ^ 64 - 2 ^ 63

/-- Go's `a / b` on `int`: panics when `b` is zero, otherwise the quotient
truncated toward zero (wrapped, which only matters for `MinInt64 / -1`). -/
def goDiv (a b : Int) : Except Panic Int :=
  if b = 0 then .error .divideByZero else .ok (wrap64 (Int.tdiv a b))

/-! ## `strconv.Atoi` -/

/-- The digit loop of `strconv.ParseUint` in base 10 with 64 bits: a byte that
is not a decimal digit is a syntax error (`none`); a value that leaves the
`uint64` range stops the loop with a range error, reported as `some none`. -/
def parseUintLoop : List Char → Nat → Option (Option Nat)
  | [], n => some (some n)
  | c :: cs, n =>
    if c.isDigit then
      if n * 10 + (c.toNat - 48) ≥ 2 ^ 64 then some none
      else parseUintLoop cs (n * 10 + (c.toNat - 48))
    else none

/-- The value returned by `strconv.Atoi` (the error is discarded by the
caller, `start, _ := strconv.Atoi(...)`): an optional sign followed by one or
more decimal digits gives the number, clamped to the `int` range when it does
not fit; anything else gives 0. -/
def atoi (s : String) : Int :=
  let cs := s.toList
  let neg := cs.head? = some '-'
  let ds := if cs.head? = some '-' ∨ cs.head? = some '+' then cs.tail else cs
  if ds = [] then 0
  else
    match parseUintLoop ds 0 with
    | none => 0
    | some none => if neg then -(2 ^ 63) else 2 ^ 63 - 1
    | some (some n) =>
      if neg then (if n > 2 ^ 63 then -(2 ^ 63) else -(n : Int))
      else (if n ≥ 2 ^ 63 then 2 ^ 63 - 1 else (n : Int))

/-! ## Loops -/

/-- A Go loop `for i := range xs` over a slice of length `n` whose body may
panic: `forRangeFrom body n i s` runs the body for the `n` indices
`i, i+1, ...`, threading the state. -/
def forRangeFrom {σ : Type} (body : Nat → σ → Except Panic σ) :
    Nat → Nat → σ → Except Panic σ
  | 0, _, s => .ok s
  | n + 1, i, s =>
    match body i s with
    | .error e => .error e
    | .ok s' => forRangeFrom body n (i + 1) s'

/-- The loop `for i := range xs` from index 0. -/
def forRange {σ : Type} (n : Nat) (body : Nat → σ → Except Panic σ) (s : σ) :
    Except Panic σ :=
  forRangeFrom body n 0 s

/-! ## Gene lengths (lines 110-118) -/

/-- The loop of lines 113-118: for each annotation record, append its name
to `genenames` and `end - start` to `genelength`. -/
def geneLengthLoop (genomeAnnotationCapture : List geneStruct) :
    List String × List Int :=
  genomeAnnotationCapture.foldl
    (fun acc g => (acc.1 ++ [g.gene], acc.2 ++ [wrap64 (atoi g.end_ - atoi g.start)]))
    ([], [])

/-! ## Read counting (lines 136-149) -/

/-- The state of the counting loop: `countAlignment` and `geneExp`.
`countAlignment` is incremented at most once per appended entry, and a slice
has fewer than `2^63` entries, so the counter never leaves the `int` range and
is kept unwrapped. -/
structure CountState where
  countAlignment : Int
  geneExp : List geneExpression
  deriving DecidableEq, Repr

/-- The body of the inner loop (lines 141-147) for the record whose position
field is `position` and the map key `j`. -/
def countBody (position : String) (st : CountState) (j : String) : CountState :=
  if j = position then
    { countAlignment := st.countAlignment + 1
      geneExp := st.geneExp ++ [{ gene := j, express := st.countAlignment + 1 }] }
  else st

/-- The inner loop `for j := range uniquegenes` (lines 140-148) for one record,
visiting the keys in the order `keys`. -/
def countRecord (keys : List String) (st : CountState) (r : geneAlign) : CountState :=
  keys.foldl (countBody r.position) st

/-- The outer loop `for i := range geneAlignCapture` (lines 139-149) from
record index `i` on. -/
def countingLoopFrom (iter : Nat → List String) :
    Nat → List geneAlign → CountState → CountState
  | _, [], st => st
  | i, r :: rs, st => countingLoopFrom iter (i + 1) rs (countRecord (iter i) st r)

/-- The counting loop of lines 136-149, started with `geneExp` empty and
`countAlignment = 0`. -/
def countingLoop (iter : Nat → List String) (geneAlignCapture : List geneAlign) :
    CountState :=
  countingLoopFrom iter 0 geneAlignCapture { countAlignment := 0, geneExp := [] }

/-! ## RPK (lines 153-161) -/

/-- The body of the inner loop of the RPK stage (lines 156-159).  The inner
index `j` is not used by the source: the body reads `geneExp[i]`,
`genenames[i]` and `genelength[i]` with the outer index `i`. -/
def rpkBody (geneExp : List geneExpression) (genenames : List String)
    (genelength : List Int) (i : Nat) (geneRPK : List Int) : Except Panic (List Int) :=
  match geneExp[i]?, genenames[i]? with
  | some e, some name =>
    if e.gene = name then
      match genelength[i]? with
      | none => .error .indexOutOfRange
      | some len =>
        match goDiv len 1000 with
        | .error p => .error p
        | .ok kb =>
          match goDiv e.express kb with
          | .error p => .error p
          | .ok intermediate => .ok (geneRPK ++ [intermediate])
    else .ok geneRPK
  | _, _ => .error .indexOutOfRange

/-- The RPK stage (lines 153-161): for every index `i` of `geneExp`, the inner
loop runs its body once per element of `genelength`. -/
def rpkLoop (geneExp : List geneExpression) (genenames : List String)
    (genelength : List Int) : Except Panic (List Int) :=
  forRange geneExp.length
    (fun i acc =>
      forRange genelength.length (fun _ acc' => rpkBody geneExp genenames genelength i acc') acc)
    []

/-! ## Scale and final expression (lines 163-187) -/

/-- The function `sum` (lines 165-171). -/
def sum (arr : List Int) : Int :=
  arr.foldl (fun counter x => wrap64 (counter + x)) 0

/-- The statement `scale := sum(geneRPK)/1000000` (line 173); the divisor is
the non-zero constant, so the statement cannot panic. -/
def scaleOf (geneRPK : List Int) : Int :=
  wrap64 (Int.tdiv (sum geneRPK) 1000000)

/-- The body of the expression loop (lines 183-186). -/
def expressionBody (genenames : List String) (geneRPK : List Int) (scale : Int)
    (i : Nat) (expression : List expressCount) : Except Panic (List expressCount) :=
  match genenames[i]?, geneRPK[i]? with
  | some name, some rpk =>
    match goDiv rpk scale with
    | .error p => .error p
    | .ok v => .ok (expression ++ [{ gene := name, expressCount := v }])
  | _, _ => .error .indexOutOfRange

/-- The expression loop (lines 180-187). -/
def expressionLoop (genenames : List String) (geneRPK : List Int) (scale : Int) :
    Except Panic (List expressCount) :=
  forRange genenames.length (expressionBody genenames geneRPK scale) []

/-- The normalisation stages of `analyzeFunc` (lines 153-187) run on the
outcome of the earlier stages: the RPK loop, then `scale`, then the
expression loop. -/
def normalize (geneExp : List geneExpression) (genenames : List String)
    (genelength : List Int) : Except Panic (List expressCount) :=
  match rpkLoop geneExp genenames genelength with
  | .error p => .error p
  | .ok geneRPK => expressionLoop genenames geneRPK (scaleOf geneRPK)

/-- The in-memory part of `analyzeFunc` after parsing (lines 110-187), for the
alignment records, the annotation records and the keys of `uniquegenes` as
they are iterated. -/
def analyzeStages (iter : Nat → List String) (geneAlignCapture : List geneAlign)
    (genomeAnnotationCapture : List geneStruct) : Except Panic (List expressCount) :=
  let names_lengths := geneLengthLoop genomeAnnotationCapture
  let counted := countingLoop iter geneAlignCapture
  normalize counted.geneExp names_lengths.1 names_lengths.2

/-! ## The spec's gene lookup (spec §4.3), for comparison with the counting loop -/

/-- The spec's interval test, in the spec's words: the half-open interval
`[start, end)` of the gene contains `position` on `referenceName`.  The
interval bounds are the integers the program reads from the `start` and `end`
fields. -/
def specContains (g : geneStruct) (referenceName : String) (position : Int) : Bool :=
  decide (g.gene = referenceName) && decide (atoi g.start ≤ position) &&
    decide (position < atoi g.end_)

/-- The spec's `lookupGeneAt(referenceName, position)`: the gene whose interval
contains the position; none when no interval or several intervals contain it. -/
def specLookupGeneAt (annot : List geneStruct) (referenceName : String)
    (position : Int) : Option String :=
  match annot.filter (fun g => specContains g referenceName position) with
  | [g] => some g.gene
  | _ => none

/-! ## Text helpers: `strings.HasPrefix` and `strings.Split` -/

/-- The test `strings.HasPrefix(s, pre)`. -/
def hasPrefix (s pre : String) : Bool :=
  pre.toList.isPrefixOf s.toList

/-- The pieces of `strings.Split(s, " ")` on the characters of `s`: the text
between consecutive single spaces, so a text with `n` spaces gives `n + 1`
pieces, some of which may be empty. -/
def splitChars : List Char → List (List Char)
  | [] => [[]]
  | c :: cs =>
    if c = ' ' then [] :: splitChars cs
    else
      match splitChars cs with
      | [] => [[c]]
      | w :: ws => (c :: w) :: ws

/-- The call `strings.Split(line, " ")`. -/
def split (line : String) : List String :=
  (splitChars line.toList).map String.mk

/-! ## Scanner loops (lines 73-85, 94-107, 122-126) -/

/-- The pieces of a file between consecutive line feeds (byte 10), read from
left to right: `current` holds the bytes of the piece being read, last byte
first, and `done` the finished pieces, last piece first. -/
def splitLinesFrom : List Char → List Char → List (List Char) → List (List Char)
  | [], current, done => (current.reverse :: done).reverse
  | c :: cs, current, done =>
    if c = Char.ofNat 10 then splitLinesFrom cs [] (current.reverse :: done)
    else splitLinesFrom cs (c :: current) done

/-- The pieces of a file between consecutive line feeds: a file with `n` line
feeds has `n + 1` pieces, the last of which is what follows the last line
feed. -/
def splitLines (file : List Char) : List (List Char) :=
  splitLinesFrom file [] []

/-- The function `dropCR` of package `bufio`: one trailing carriage return
(byte 13) is dropped. -/
def dropCR (data : List Char) : List Char :=
  if data.getLast? = some (Char.ofNat 13) then data.dropLast else data

/-- The constant `bufio.MaxScanTokenSize`, `64 * 1024`: the size at which the
buffer of a scanner stops growing. -/
def maxScanTokenSize : Nat := 65536

/-- A `bufio.Scanner` with the default split function `ScanLines`.  `tokens`
are the lines `Scan` yields, in order, before it next returns false.
`buffered` is what the scanner still holds at that point: nothing after the
end of the file; after a line of `maxScanTokenSize` bytes or more
(`ErrTooLong`) the full buffer, which the `Scan` call made after the one that
returned false yields as one more token. -/
structure Scanner where
  tokens : List String
  buffered : Option String
  deriving DecidableEq, Repr

/-- The scanner over the pieces of a file.  A piece of `maxScanTokenSize`
bytes or more fills the buffer before its line feed is seen: `Scan` returns
false (`ErrTooLong`), no later piece is read, and the buffer holds the first
`maxScanTokenSize` bytes of the piece.  Any other piece is a token, without
its trailing carriage return, except an empty piece after the last line
feed, which is the end of the file. -/
def scanPieces : List (List Char) → Scanner
  | [] => { tokens := [], buffered := none }
  | piece :: rest =>
    if maxScanTokenSize ≤ piece.length then
      { tokens := [], buffered := some (String.mk (dropCR (piece.take maxScanTokenSize))) }
    else
      match rest with
      | [] =>
        if piece = [] then { tokens := [], buffered := none }
        else { tokens := [String.mk (dropCR piece)], buffered := none }
      | next :: more =>
        { tokens := String.mk (dropCR piece) :: (scanPieces (next :: more)).tokens
          buffered := (scanPieces (next :: more)).buffered }

/-- The call `bufio.NewScanner(f)` on an opened file with the content `file`
(lines 73 and 94). -/
def newScanner (file : String) : Scanner :=
  scanPieces (splitLines file.toList)

/-- The loop `for sc.Scan() { line := sc.Text(); body }` on the tokens the
scanner yields before `Scan` returns false; `buffered` is what the scanner
then still holds. -/
def scanLoopFrom {σ : Type} (body : String → σ → Except Panic σ)
    (buffered : Option String) : List String → σ → Except Panic (σ × Scanner)
  | [], s => .ok (s, { tokens := buffered.toList, buffered := none })
  | line :: rest, s =>
    match body line s with
    | .error p => .error p
    | .ok s' => scanLoopFrom body buffered rest s'

/-- The loop `for sc.Scan() { line := sc.Text(); body }`: the body runs once
per token, in order, until `Scan` returns false; the result is the state the
body has built and the scanner as the loop leaves it. -/
def scanLoop {σ : Type} (body : String → σ → Except Panic σ) (sc : Scanner) (s : σ) :
    Except Panic (σ × Scanner) :=
  scanLoopFrom body sc.buffered sc.tokens s

/-- The body of the alignment-parsing loop (lines 75-84). -/
def alignmentBody (line : String) (geneAlignCapture : List geneAlign) :
    Except Panic (List geneAlign) :=
  if hasPrefix line "@" then .ok geneAlignCapture
  else if !hasPrefix line "@" then
    match (split line)[2]?, (split line)[3]? with
    | some gene, some position =>
      .ok (geneAlignCapture ++ [{ gene := gene, position := position }])
    | _, _ => .error .indexOutOfRange
  else .ok geneAlignCapture

/-- The body of the annotation-parsing loop (lines 96-106).  The call
`strings.Split(string(line))` of line 100 lacks its separator; it is read as
`strings.Split(string(line), " ")`, the call made everywhere else. -/
def annotationBody (line : String) (genomeAnnotationCapture : List geneStruct) :
    Except Panic (List geneStruct) :=
  if hasPrefix line "#" then .ok genomeAnnotationCapture
  else
    match (split line)[2]? with
    | none => .error .indexOutOfRange
    | some feature =>
      if !hasPrefix line "#" && feature = "gene" then
        match (split line)[0]?, (split line)[3]?, (split line)[4]? with
        | some gene, some start, some end_ =>
          .ok (genomeAnnotationCapture ++ [{ gene := gene, start := start, end_ := end_ }])
        | _, _, _ => .error .indexOutOfRange
      else .ok genomeAnnotationCapture

/-- The assignment `m[k] = v` on a Go map kept as a list of entries with
distinct keys. -/
def mapSet : List (String × String) → String → String → List (String × String)
  | [], k, v => [(k, v)]
  | (k', v') :: m, k, v => if k' = k then (k, v) :: m else (k', v') :: mapSet m k v

/-- The body of the loop that fills `uniquegenes` (lines 123-125). -/
def uniquegenesBody (line : String) (uniquegenes : List (String × String)) :
    Except Panic (List (String × String)) :=
  match (split line)[2]?, (split line)[4]? with
  | some uniqueline, some additionaline => .ok (mapSet uniquegenes uniqueline additionaline)
  | _, _ => .error .indexOutOfRange

/-! ## The whole of `analyzeFunc` on the contents of its two input files -/

/-- The function `analyzeFunc` (lines 62-187) on the content of the alignment
file and of the annotation file, up to the table that is then written out.
`order i keys` is the order in which the `range uniquegenes` statement executed
for record `i` visits the keys `keys` of the map.  The second loop over `fRead`
(line 122) scans the scanner as the first loop has left it. -/
def analyzeFunc (order : Nat → List String → List String)
    (samFile gtfFile : String) : Except Panic (List expressCount) :=
  match scanLoop alignmentBody (newScanner samFile) [] with
  | .error p => .error p
  | .ok (geneAlignCapture, fRead) =>
    match scanLoop annotationBody (newScanner gtfFile) [] with
    | .error p => .error p
    | .ok (genomeAnnotationCapture, _) =>
      match scanLoop uniquegenesBody fRead [] with
      | .error p => .error p
      | .ok (uniquegenes, _) =>
        analyzeStages (fun i => order i (uniquegenes.map (fun kv => kv.1)))
          geneAlignCapture genomeAnnotationCapture

/-! ## The function `main` (lines 28-33) -/

/-- The function `main`: `executeError` is the error returned by
`rootCmd.Execute()`, none for a run without error.  The result is what is
printed and the argument of the `os.Exit` call that ends the process. -/
def main (executeError : Option String) : List String × Int :=
  let printed := match executeError with
    | some err => [err]
    | none => []
  (printed, 1)

/-! ## The spec's whitespace-delimited fields (spec §4.1), for comparison -/

/-- The spec's fields of a line, in the spec's words: the line split on
whitespace, that is the maximal runs of characters other than space and tab. -/
def specFields (line : String) : List String :=
  ((line.toList.splitOnP (fun c => c = ' ' || c = Char.ofNat 9)).filter
    (fun w => !w.isEmpty)).map String.mk

/-! ## The counting loop: one record against a set of distinct keys -/

/-- With distinct keys, the inner loop appends one entry, named after the
record's position field, when that field is a key, and changes nothing
otherwise. -/
theorem countRecord_eq (keys : List String) (hk : keys.Nodup) (st : CountState)
    (r : geneAlign) :
    countRecord keys st r =
      if r.position ∈ keys then
        { countAlignment := st.countAlignment + 1
          geneExp := st.geneExp ++ [{ gene := r.position, express := st.countAlignment + 1 }] }
      else st := by
  induction keys generalizing st with
  | nil => simp [countRecord]
  | cons k ks ih =>
    have hnd := List.nodup_cons.mp hk
    have ih' := fun s => ih hnd.2 s
    unfold countRecord at ih' ⊢
    simp only [List.foldl_cons]
    by_cases h : k = r.position
    · subst h
      rw [ih']
      simp [countBody, hnd.1]
    · rw [ih']
      have h' : ¬ r.position = k := fun e => h e.symm
      simp [countBody, h, h']

/-- The inner loop gives the same state for every order of the same keys. -/
theorem countRecord_perm (keys ord : List String) (hk : keys.Nodup) (hp : ord.Perm keys)
    (st : CountState) (r : geneAlign) :
    countRecord ord st r = countRecord keys st r := by
  rw [countRecord_eq ord (hp.nodup_iff.mpr hk), countRecord_eq keys hk]
  simp [hp.mem_iff]

/-- Under any iteration schedule of the key set, the outer loop is the fold of
the inner loop taken in one fixed key order. -/
theorem countingLoopFrom_sched (keys : List String) (hk : keys.Nodup)
    (iter : Nat → List String) (hi : ∀ i, (iter i).Perm keys)
    (rs : List geneAlign) (i : Nat) (st : CountState) :
    countingLoopFrom iter i rs st = rs.foldl (countRecord keys) st := by
  induction rs generalizing i st with
  | nil => rfl
  | cons r rs ih =>
    simp only [countingLoopFrom, List.foldl_cons]
    rw [ih, countRecord_perm keys (iter i) hk (hi i)]

/-- The gene names of the appended entries are the position fields of the
records whose position field is a key, in record order. -/
theorem foldl_countRecord_genes (keys : List String) (hk : keys.Nodup)
    (rs : List geneAlign) (st : CountState) :
    (rs.foldl (countRecord keys) st).geneExp.map (fun e => e.gene) =
      st.geneExp.map (fun e => e.gene) ++
        (rs.filter (fun r => decide (r.position ∈ keys))).map (fun r => r.position) := by
  induction rs generalizing st with
  | nil => simp
  | cons r rs ih =>
    simp only [List.foldl_cons]
    rw [ih, countRecord_eq keys hk]
    by_cases h : r.position ∈ keys <;> simp [h, List.filter_cons]

/-- The counter and the length of `geneExp` both grow by the number of records
whose position field is a key. -/
theorem foldl_countRecord_count (keys : List String) (hk : keys.Nodup)
    (rs : List geneAlign) (st : CountState) :
    (rs.foldl (countRecord keys) st).countAlignment =
      st.countAlignment + ((rs.filter (fun r => decide (r.position ∈ keys))).length : Int) ∧
    (rs.foldl (countRecord keys) st).geneExp.length =
      st.geneExp.length + (rs.filter (fun r => decide (r.position ∈ keys))).length := by
  induction rs generalizing st with
  | nil => simp
  | cons r rs ih =>
    simp only [List.foldl_cons]
    rw [(ih _).1, (ih _).2, countRecord_eq keys hk]
    by_cases h : r.position ∈ keys
    · simp [h, List.filter_cons]; constructor <;> ring
    · simp [h, List.filter_cons]

/-! ## Helper lemmas on machine integers and on `for ... range` loops -/

/-- A value already in the `int` range is left unchanged by wrapping. -/
theorem wrap64_of_range (x : Int) (h₁ : -(2 ^ 63) ≤ x) (h₂ : x < 2 ^ 63) :
    wrap64 x = x := by
  unfold wrap64
  norm_num at h₁ h₂ ⊢
  omega

/-- Division by a non-zero divisor does not panic. -/
theorem goDiv_of_ne_zero (a b : Int) (hb : b ≠ 0) :
    goDiv a b = .ok (wrap64 (Int.tdiv a b)) := by
  simp [goDiv, hb]

/-- With a non-zero scale and at least as many RPK values as genes left, the
expression loop completes and pairs the genes with the RPK values position by
position. -/
theorem forRangeFrom_expressionBody (scale : Int) (hs : scale ≠ 0)
    (names : List String) :
    ∀ (pre : List String) (preR rpk : List Int) (acc : List expressCount),
      pre.length = preR.length → names.length ≤ rpk.length →
      forRangeFrom (expressionBody (pre ++ names) (preR ++ rpk) scale)
          names.length pre.length acc =
        .ok (acc ++ List.zipWith
          (fun name r => ({ gene := name, expressCount := wrap64 (Int.tdiv r scale) } :
            expressCount)) names rpk) := by
  induction names with
  | nil =>
    intro pre preR rpk acc _ _
    simp [forRangeFrom]
  | cons n ns ih =>
    intro pre preR rpk acc hpre hl
    cases rpk with
    | nil => simp at hl
    | cons r rs =>
      have hl' : ns.length ≤ rs.length := by simpa using hl
      have hbody : expressionBody (pre ++ n :: ns) (preR ++ r :: rs) scale pre.length acc =
          .ok (acc ++ [{ gene := n, expressCount := wrap64 (Int.tdiv r scale) }]) := by
        have e₁ : (pre ++ n :: ns)[pre.length]? = some n := by
          rw [List.getElem?_append_right (le_refl _)]; simp
        have e₂ : (preR ++ r :: rs)[pre.length]? = some r := by
          rw [hpre, List.getElem?_append_right (le_refl _)]; simp
        simp [expressionBody, e₁, e₂, goDiv_of_ne_zero r scale hs]
      have hrec := ih (pre ++ [n]) (preR ++ [r]) rs
        (acc ++ [{ gene := n, expressCount := wrap64 (Int.tdiv r scale) }])
        (by simp [hpre]) hl'
      simp only [List.append_assoc, List.singleton_append, List.length_append,
        List.length_singleton] at hrec
      simp only [List.length_cons, forRangeFrom, hbody]
      rw [hrec]
      simp

/-- A loop whose body appends `f k` at index `k` appends, in index order, the
lists `f i₀`, `f (i₀ + 1)`, ... and completes. -/
theorem forRangeFrom_append {α : Type} (body : Nat → List α → Except Panic (List α))
    (f : Nat → List α) :
    ∀ (n i₀ : Nat) (acc : List α),
      (∀ k, i₀ ≤ k → k < i₀ + n → ∀ a, body k a = .ok (a ++ f k)) →
      forRangeFrom body n i₀ acc = .ok (acc ++ (List.range' i₀ n).flatMap f) := by
  intro n
  induction n with
  | zero => intro i₀ acc _; simp [forRangeFrom]
  | succ n ih =>
    intro i₀ acc h
    have hb := h i₀ (le_refl _) (by omega) acc
    simp only [forRangeFrom, hb]
    rw [ih (i₀ + 1) (acc ++ f i₀) (fun k hk₁ hk₂ a => h k (by omega) (by omega) a)]
    simp [List.range'_succ]

/-- One execution of the RPK body at an index where the three slices have an
element, the count is non-negative and the length is at least 1000: nothing
panics, and the truncated quotient is appended when the names agree. -/
theorem rpkBody_ok (geneExp : List geneExpression) (genenames : List String)
    (genelength : List Int) (i : Nat) (e : geneExpression) (name : String) (len : Int)
    (h₁ : geneExp[i]? = some e) (h₂ : genenames[i]? = some name)
    (h₃ : genelength[i]? = some len)
    (he : 0 ≤ e.express ∧ e.express < 2 ^ 63) (hl : 1000 ≤ len ∧ len < 2 ^ 63)
    (acc : List Int) :
    rpkBody geneExp genenames genelength i acc =
      .ok (acc ++ if e.gene = name then [e.express / (len / 1000)] else []) := by
  have hkb : Int.tdiv len 1000 = len / 1000 := Int.tdiv_eq_ediv (by omega) (by norm_num)
  have hkb₁ : 1 ≤ len / 1000 := by omega
  have hkb₂ : len / 1000 < 2 ^ 63 := by omega
  have hq : Int.tdiv e.express (len / 1000) = e.express / (len / 1000) :=
    Int.tdiv_eq_ediv he.1 (by omega)
  have hq₁ : 0 ≤ e.express / (len / 1000) := Int.ediv_nonneg he.1 (by omega)
  have hq₂ : e.express / (len / 1000) ≤ e.express :=
    Int.ediv_le_self _ he.1
  unfold rpkBody
  simp only [h₁, h₂, h₃]
  by_cases hname : e.gene = name
  · simp only [hname, if_true]
    rw [goDiv_of_ne_zero len 1000 (by norm_num), hkb,
      wrap64_of_range _ (by omega) hkb₂]
    simp only
    rw [goDiv_of_ne_zero _ _ (by omega), hq, wrap64_of_range _ (by omega) (by omega)]
  · simp [hname]

/-- The gene-length loop lists the names and the wrapped differences
`end - start` of the annotation records, in order. -/
theorem geneLengthLoop_eq (genomeAnnotationCapture : List geneStruct) :
    geneLengthLoop genomeAnnotationCapture =
      (genomeAnnotationCapture.map (fun g => g.gene),
        genomeAnnotationCapture.map (fun g => wrap64 (atoi g.end_ - atoi g.start))) := by
  have h : ∀ (l : List geneStruct) (acc : List String × List Int),
      l.foldl
        (fun acc g => (acc.1 ++ [g.gene], acc.2 ++ [wrap64 (atoi g.end_ - atoi g.start)]))
        acc =
      (acc.1 ++ l.map (fun g => g.gene),
        acc.2 ++ l.map (fun g => wrap64 (atoi g.end_ - atoi g.start))) := by
    intro l
    induction l with
    | nil => intro acc; simp
    | cons g gs ih => intro acc; simp [ih]
  simpa using h genomeAnnotationCapture ([], [])

/-- A single `geneExp` entry with count 1 for the first gene of the
annotation, whose length is 1000: the RPK loop appends the value 1 once per
element of `genelength`. -/
theorem rpkLoop_single (k : String) (ns : List String) (ls : List Int) :
    rpkLoop [⟨k, 1⟩] (k :: ns) (1000 :: ls) = .ok (List.replicate (ls.length + 1) 1) := by
  have hrep : ∀ (n s : Nat), (List.range' s n).flatMap (fun _ => [(1 : Int)]) =
      List.replicate n 1 := by
    intro n
    induction n with
    | zero => intro s; simp
    | succ n ih => intro s; simp [List.range'_succ, ih, List.replicate_succ]
  have hbody : ∀ a, rpkBody [⟨k, 1⟩] (k :: ns) (1000 :: ls) 0 a = .ok (a ++ [1]) := by
    intro a
    rw [rpkBody_ok [⟨k, 1⟩] (k :: ns) (1000 :: ls) 0 ⟨k, 1⟩ k 1000 (by simp) (by simp)
      (by simp) (by constructor <;> norm_num) (by decide) a]
    simp
  have hinner : ∀ a, forRange (1000 :: ls).length
      (fun _ acc' => rpkBody [⟨k, 1⟩] (k :: ns) (1000 :: ls) 0 acc') a =
        .ok (a ++ List.replicate (ls.length + 1) 1) := by
    intro a
    have h := forRangeFrom_append
      (fun _ acc' => rpkBody [⟨k, 1⟩] (k :: ns) (1000 :: ls) 0 acc') (fun _ => [(1 : Int)])
      (ls.length + 1) 0 a (fun _ _ _ a' => hbody a')
    rw [hrep] at h
    exact h
  have houter := forRangeFrom_append
    (fun i acc => forRange (1000 :: ls).length
      (fun _ acc' => rpkBody [⟨k, 1⟩] (k :: ns) (1000 :: ls) i acc') acc)
    (fun _ => List.replicate (ls.length + 1) (1 : Int)) 1 0 []
    (fun i _ hi a => by
      have hi0 : i = 0 := by omega
      subst hi0
      exact hinner a)
  simpa [rpkLoop, forRange] using houter

/-- The function `sum` on `n` ones is `n`, as long as `n` is an `int`. -/
theorem sum_replicate_one (n : Nat) (hn : (n : Int) < 2 ^ 63) :
    sum (List.replicate n 1) = n := by
  have h : ∀ (m : Nat) (c : Int), 0 ≤ c → c + m < 2 ^ 63 →
      (List.replicate m (1 : Int)).foldl (fun counter x => wrap64 (counter + x)) c =
        c + m := by
    intro m
    induction m with
    | zero => intro c _ _; simp
    | succ m ih =>
      intro c hc hlt
      simp only [List.replicate_succ, List.foldl_cons]
      have hlt' : c + 1 + (m : Int) < 2 ^ 63 := by push_cast at hlt; omega
      rw [wrap64_of_range (c + 1) (by omega) (by omega), ih (c + 1) (by omega) hlt']
      push_cast
      ring
  simpa [sum] using h n 0 (le_refl _) (by simpa using hn)

/-- With the scale 1 and one RPK value 1 per gene, the expression loop gives
every gene the value 1. -/
theorem expressionLoop_ones (genenames : List String) :
    expressionLoop genenames (List.replicate genenames.length 1) 1 =
      .ok (genenames.map (fun name => ({ gene := name, expressCount := 1 } : expressCount))) := by
  have h := forRangeFrom_expressionBody 1 (by decide) genenames [] []
    (List.replicate genenames.length 1) [] rfl (by simp)
  have hz : ∀ (l : List String),
      List.zipWith
        (fun name r => ({ gene := name, expressCount := wrap64 (Int.tdiv r 1) } : expressCount))
        l (List.replicate l.length 1) =
      l.map (fun name => ({ gene := name, expressCount := 1 } : expressCount)) := by
    intro l
    induction l with
    | nil => simp
    | cons a l ih =>
      simp only [List.length_cons, List.replicate_succ, List.zipWith_cons_cons, List.map_cons, ih]
      have : wrap64 (Int.tdiv 1 1) = 1 := by decide
      rw [this]
  rw [hz] at h
  simpa [expressionLoop, forRange] using h

/-- One alignment record, matched to the first gene of the annotation, whose
length is 1000: when the number of annotation genes makes the scale 1, the run
completes and every gene of the annotation gets the value 1. -/
theorem analyzeStages_single_read (first : geneStruct) (rest : List geneStruct)
    (r : geneAlign) (hr : r.position = first.gene)
    (hfirst : wrap64 (atoi first.end_ - atoi first.start) = 1000)
    (hscale : scaleOf (List.replicate (rest.length + 1) 1) = 1) :
    analyzeStages (fun _ => [first.gene]) [r] (first :: rest) =
      .ok ((first :: rest).map
        (fun g => ({ gene := g.gene, expressCount := 1 } : expressCount))) := by
  have hc : (countingLoop (fun _ => [first.gene]) [r]).geneExp = [⟨first.gene, 1⟩] := by
    simp [countingLoop, countingLoopFrom, countRecord, countBody, hr]
  have hrpk := rpkLoop_single first.gene (rest.map (fun g => g.gene))
    (rest.map (fun g => wrap64 (atoi g.end_ - atoi g.start)))
  simp only [List.length_map] at hrpk
  have hex := expressionLoop_ones ((first :: rest).map (fun g => g.gene))
  simp only [List.length_map, List.length_cons, List.map_cons, List.map_map] at hex
  simp only [analyzeStages, geneLengthLoop_eq, hc, List.map_cons, hfirst, normalize, hrpk,
    hscale]
  rw [hex]
  simp [Function.comp]

/-! ## Helper lemmas on `strings.Split` and on scanner loops -/

/-- A piece without a space, followed by a space, is the first piece of the
split. -/
theorem splitChars_append_space (f rest : List Char) (hf : ' ' ∉ f) :
    splitChars (f ++ ' ' :: rest) = f :: splitChars rest := by
  induction f with
  | nil => simp [splitChars]
  | cons c cs ih =>
    have hc : c ≠ ' ' := fun e => hf (by simp [e])
    have hcs : ' ' ∉ cs := fun h => hf (List.mem_cons_of_mem _ h)
    simp [splitChars, hc, ih hcs]

/-- A text without a space is the only piece of its split. -/
theorem splitChars_no_space (f : List Char) (hf : ' ' ∉ f) : splitChars f = [f] := by
  induction f with
  | nil => simp [splitChars]
  | cons c cs ih =>
    have hc : c ≠ ' ' := fun e => hf (by simp [e])
    have hcs : ' ' ∉ cs := fun h => hf (List.mem_cons_of_mem _ h)
    simp [splitChars, hc, ih hcs]

/-- Splitting the fields joined by single spaces gives the fields back. -/
theorem splitChars_intercalate (f : List Char) (fs : List (List Char))
    (h : ∀ g ∈ f :: fs, ' ' ∉ g) :
    splitChars (List.intercalate [' '] (f :: fs)) = f :: fs := by
  induction fs generalizing f with
  | nil =>
    simpa [List.intercalate] using splitChars_no_space f (h f (by simp))
  | cons g gs ih =>
    have hg := ih g (fun x hx => h x (List.mem_cons_of_mem _ hx))
    have e : List.intercalate [' '] (f :: g :: gs) =
        f ++ ' ' :: List.intercalate [' '] (g :: gs) := by
      simp [List.intercalate, List.intersperse]
    rw [e, splitChars_append_space f _ (h f (by simp)), hg]

/-- An index below the length reads an element. -/
theorem getElem?_eq_some_getD {α : Type} (l : List α) (i : Nat) (d : α)
    (h : i < l.length) : l[i]? = some (l.getD i d) := by
  simp [List.getD, List.getElem?_eq_getElem h]

/-- Reading a mapped list at an index below its length. -/
theorem getD_map_of_lt {α β : Type} (g : α → β) (l : List α) (i : Nat) (d : β) (d' : α)
    (h : i < l.length) : (l.map g).getD i d = g (l.getD i d') := by
  simp [List.getD, List.getElem?_eq_getElem h]

/-- A scanner loop whose body appends `f line` for every line it meets
completes and has appended the lists `f line` in line order; the scanner is
left with what it had buffered. -/
theorem scanLoopFrom_append {α : Type} (body : String → List α → Except Panic (List α))
    (f : String → List α) (buffered : Option String) (lines : List String) :
    ∀ (acc : List α), (∀ line ∈ lines, ∀ a, body line a = .ok (a ++ f line)) →
      scanLoopFrom body buffered lines acc =
        .ok (acc ++ lines.flatMap f, { tokens := buffered.toList, buffered := none }) := by
  induction lines with
  | nil => intro acc _; simp [scanLoopFrom]
  | cons l ls ih =>
    intro acc h
    simp only [scanLoopFrom, h l (by simp) acc]
    rw [ih (acc ++ f l) (fun line hl a => h line (List.mem_cons_of_mem _ hl) a)]
    simp

/-- A scanner loop that completes leaves the scanner with what it had
buffered, and nothing else. -/
theorem scanLoopFrom_after {σ : Type} (body : String → σ → Except Panic σ)
    (buffered : Option String) (lines : List String) :
    ∀ (s s' : σ) (sc : Scanner), scanLoopFrom body buffered lines s = .ok (s', sc) →
      sc = { tokens := buffered.toList, buffered := none } := by
  induction lines with
  | nil =>
    intro s s' sc h
    simp only [scanLoopFrom] at h
    exact ((Prod.mk.inj (Except.ok.inj h)).2).symm
  | cons l ls ih =>
    intro s s' sc h
    simp only [scanLoopFrom] at h
    cases hb : body l s with
    | error p => rw [hb] at h; exact absurd h (by simp)
    | ok s₁ => rw [hb] at h; exact ih s₁ s' sc h

/-- Bytes without a line feed are added to the piece being read. -/
theorem splitLinesFrom_no_feed (f : List Char) (hf : Char.ofNat 10 ∉ f) :
    ∀ (rest current : List Char) (done : List (List Char)),
      splitLinesFrom (f ++ rest) current done =
        splitLinesFrom rest (f.reverse ++ current) done := by
  induction f with
  | nil => intro rest current done; rfl
  | cons c cs ih =>
    intro rest current done
    have hc : c ≠ Char.ofNat 10 := fun e => hf (by simp [e])
    have hcs : Char.ofNat 10 ∉ cs := fun h => hf (List.mem_cons_of_mem _ h)
    show splitLinesFrom (c :: (cs ++ rest)) current done = _
    simp only [splitLinesFrom, hc, if_false]
    rw [ih hcs rest (c :: current) done]
    simp

/-- The finished pieces come first in the result. -/
theorem splitLinesFrom_done (cs : List Char) :
    ∀ (current : List Char) (done : List (List Char)),
      splitLinesFrom cs current done = done.reverse ++ splitLinesFrom cs current [] := by
  induction cs with
  | nil => intro current done; simp [splitLinesFrom]
  | cons c cs ih =>
    intro current done
    by_cases hc : c = Char.ofNat 10
    · simp only [splitLinesFrom, hc, if_true]
      rw [ih [] (current.reverse :: done), ih [] [current.reverse]]
      simp
    · simp only [splitLinesFrom, hc, if_false]
      exact ih (c :: current) done

/-- A piece without a line feed, followed by a line feed, is the first piece
of the file. -/
theorem splitLines_append_feed (f rest : List Char) (hf : Char.ofNat 10 ∉ f) :
    splitLines (f ++ Char.ofNat 10 :: rest) = f :: splitLines rest := by
  unfold splitLines
  rw [splitLinesFrom_no_feed f hf]
  simp only [splitLinesFrom, if_true, List.append_nil, List.reverse_reverse]
  rw [splitLinesFrom_done]
  rfl

/-- A file without a line feed is its only piece. -/
theorem splitLines_no_feed (f : List Char) (hf : Char.ofNat 10 ∉ f) : splitLines f = [f] := by
  unfold splitLines
  have h := splitLinesFrom_no_feed f hf [] [] []
  rw [List.append_nil] at h
  rw [h]
  simp [splitLinesFrom]

/-- Splitting the lines joined by line feeds gives the lines back. -/
theorem splitLines_intercalate (f : List Char) (fs : List (List Char))
    (h : ∀ g ∈ f :: fs, Char.ofNat 10 ∉ g) :
    splitLines (List.intercalate [Char.ofNat 10] (f :: fs)) = f :: fs := by
  induction fs generalizing f with
  | nil =>
    simpa [List.intercalate] using splitLines_no_feed f (h f (by simp))
  | cons g gs ih =>
    have hg := ih g (fun x hx => h x (List.mem_cons_of_mem _ hx))
    have e : List.intercalate [Char.ofNat 10] (f :: g :: gs) =
        f ++ Char.ofNat 10 :: List.intercalate [Char.ofNat 10] (g :: gs) := by
      simp [List.intercalate, List.intersperse]
    rw [e, splitLines_append_feed f _ (h f (by simp)), hg]

/-- A file without a piece of `maxScanTokenSize` bytes or more is read to its
end: the scanner has nothing buffered when `Scan` returns false. -/
theorem scanPieces_buffered_none (pieces : List (List Char))
    (h : ∀ p ∈ pieces, p.length < maxScanTokenSize) : (scanPieces pieces).buffered = none := by
  induction pieces with
  | nil => rfl
  | cons p rest ih =>
    have hp : ¬ maxScanTokenSize ≤ p.length := by
      have := h p (by simp); omega
    cases rest with
    | nil =>
      by_cases he : p = []
      · subst he; rfl
      · simp [scanPieces, hp, he]
    | cons q more =>
      simp only [scanPieces, hp, if_false]
      exact ih (fun x hx => h x (List.mem_cons_of_mem _ hx))

/-- A file of pieces that are non-empty, shorter than `maxScanTokenSize` and
without a trailing carriage return: every piece is a token. -/
theorem scanPieces_short (p : List Char) (rest : List (List Char))
    (h : ∀ q ∈ p :: rest, q.length < maxScanTokenSize ∧ q ≠ [] ∧ dropCR q = q) :
    scanPieces (p :: rest) = { tokens := (p :: rest).map String.mk, buffered := none } := by
  induction rest generalizing p with
  | nil =>
    obtain ⟨h₁, h₂, h₃⟩ := h p (by simp)
    have hp : ¬ maxScanTokenSize ≤ p.length := by omega
    simp [scanPieces, hp, h₂, h₃]
  | cons q more ih =>
    obtain ⟨h₁, h₂, h₃⟩ := h p (by simp)
    have hp : ¬ maxScanTokenSize ≤ p.length := by omega
    have hq := ih q (fun x hx => h x (List.mem_cons_of_mem _ hx))
    simp only [scanPieces, hp, if_false, h₃, hq, List.map_cons]

/-- A trailing byte other than a carriage return is kept. -/
theorem dropCR_append_singleton (l : List Char) (c : Char) (hc : c ≠ Char.ofNat 13) :
    dropCR (l ++ [c]) = l ++ [c] := by
  unfold dropCR
  rw [List.getLast?_append]
  simp [hc]

/-- Appending one element for the lines that pass a test and nothing for the
others lists the images of the lines that pass, in order. -/
theorem flatMap_ite_eq_map_filter {α : Type} (p : String → Bool) (g : String → α)
    (lines : List String) :
    lines.flatMap (fun l => if p l then [g l] else []) = (lines.filter p).map g := by
  induction lines with
  | nil => simp
  | cons l ls ih =>
    by_cases h : p l <;> simp [List.flatMap_cons, List.filter_cons, h, ih]

/-- The alignment-parsing body on a line that is a header or has at least
four space-separated fields. -/
theorem alignmentBody_ok (line : String)
    (h : hasPrefix line "@" = false → 4 ≤ (split line).length) (acc : List geneAlign) :
    alignmentBody line acc =
      .ok (acc ++ if !hasPrefix line "@" then
        [{ gene := (split line).getD 2 "", position := (split line).getD 3 "" }] else []) := by
  unfold alignmentBody
  by_cases hp : hasPrefix line "@" = true
  · simp [hp]
  · have hp' : hasPrefix line "@" = false := by simpa using hp
    have hl := h hp'
    rw [hp', getElem?_eq_some_getD (split line) 2 "" (by omega),
      getElem?_eq_some_getD (split line) 3 "" (by omega)]
    rfl

/-- The annotation-parsing body on a line that is a comment or has at least
five space-separated fields. -/
theorem annotationBody_ok (line : String)
    (h : hasPrefix line "#" = false → 5 ≤ (split line).length) (acc : List geneStruct) :
    annotationBody line acc =
      .ok (acc ++
        if !hasPrefix line "#" && decide ((split line).getD 2 "" = "gene") then
          [{ gene := (split line).getD 0 "", start := (split line).getD 3 "",
             end_ := (split line).getD 4 "" }]
        else []) := by
  unfold annotationBody
  by_cases hp : hasPrefix line "#" = true
  · simp [hp]
  · have hp' : hasPrefix line "#" = false := by simpa using hp
    have hl := h hp'
    rw [hp', getElem?_eq_some_getD (split line) 2 "" (by omega),
      getElem?_eq_some_getD (split line) 0 "" (by omega),
      getElem?_eq_some_getD (split line) 3 "" (by omega),
      getElem?_eq_some_getD (split line) 4 "" (by omega)]
    by_cases hg : (split line).getD 2 "" = "gene"
    · rw [hg]; rfl
    · simp only [Bool.not_false, Bool.true_and, decide_eq_true_eq, hg, if_false,
        Bool.false_eq_true, List.append_nil]

/-! ## Helper lemmas on `strconv.Atoi`, on whole runs and on the running counter -/

/-- A field without any decimal digit is read as 0 by `strconv.Atoi`. -/
theorem atoi_no_digit (s : String) (h : ∀ c ∈ s.toList, c.isDigit = false) : atoi s = 0 := by
  have key : ∀ ds : List Char, (∀ c ∈ ds, c.isDigit = false) →
      (if ds = [] then (0 : Int)
        else
          match parseUintLoop ds 0 with
          | none => 0
          | some none => if s.toList.head? = some '-' then -(2 ^ 63) else 2 ^ 63 - 1
          | some (some n) =>
            if s.toList.head? = some '-' then (if n > 2 ^ 63 then -(2 ^ 63) else -(n : Int))
            else (if n ≥ 2 ^ 63 then 2 ^ 63 - 1 else (n : Int))) = 0 := by
    intro ds hds
    cases ds with
    | nil => simp
    | cons c cs =>
      have hc : c.isDigit = false := hds c (by simp)
      simp [parseUintLoop, hc]
  unfold atoi
  by_cases hsign : s.toList.head? = some '-' ∨ s.toList.head? = some '+'
  · simp only [hsign, if_true]
    exact key s.toList.tail (fun c hc => h c (List.mem_of_mem_tail hc))
  · simp only [hsign, if_false]
    exact key s.toList h

/-- With no key to visit, the counting loop changes nothing. -/
theorem countingLoopFrom_no_keys (iter : Nat → List String) (hi : ∀ i, iter i = [])
    (rs : List geneAlign) :
    ∀ (i : Nat) (st : CountState), countingLoopFrom iter i rs st = st := by
  induction rs with
  | nil => intro i st; rfl
  | cons r rs ih =>
    intro i st
    simp only [countingLoopFrom, hi i, countRecord, List.foldl_nil]
    exact ih (i + 1) st

/-- With `geneExp` empty, the normalisation stages give the empty table when
the annotation has no gene and panic on `geneRPK[0]` when it has one. -/
theorem normalize_nil (genenames : List String) (genelength : List Int) :
    normalize [] genenames genelength =
      if genenames = [] then .ok [] else .error .indexOutOfRange := by
  cases genenames with
  | nil => rfl
  | cons n ns =>
    simp [normalize, rpkLoop, forRange, forRangeFrom, expressionLoop, expressionBody]

/-- The run of `analyzeFunc` once both files have been parsed, when the
scanner of the alignment file has nothing buffered after its loop: the loop of
line 122 then runs for no line, `uniquegenes` stays empty, nothing is counted,
and the outcome depends only on whether the annotation has a gene. -/
theorem analyzeFunc_of_parsed (order : Nat → List String → List String)
    (horder : ∀ i ks, (order i ks).Perm ks) (samFile gtfFile : String)
    (recs : List geneAlign) (sc : Scanner) (anns : List geneStruct) (sc' : Scanner)
    (hbuf : (newScanner samFile).buffered = none)
    (hsam : scanLoop alignmentBody (newScanner samFile) [] = .ok (recs, sc))
    (hgtf : scanLoop annotationBody (newScanner gtfFile) [] = .ok (anns, sc')) :
    analyzeFunc order samFile gtfFile =
      if anns = [] then .ok [] else .error .indexOutOfRange := by
  have hsc : sc = { tokens := [], buffered := none } := by
    have h := scanLoopFrom_after alignmentBody _ _ [] recs sc hsam
    rw [hbuf] at h
    exact h
  have hcount : countingLoop (fun i => order i []) recs =
      { countAlignment := 0, geneExp := [] } :=
    countingLoopFrom_no_keys _ (fun i => (horder i []).eq_nil) recs 0 _
  simp only [analyzeFunc, hsam, hgtf]
  subst hsc
  simp only [scanLoop, scanLoopFrom, List.map_nil, analyzeStages, hcount, geneLengthLoop_eq,
    normalize_nil]
  cases anns <;> simp

/-- The invariant of the counting loop: the counter is the number of entries
and the entry at index `k` carries `k + 1`. -/
theorem countRecord_running (keys : List String) (hk : keys.Nodup) (st : CountState)
    (r : geneAlign) (h₁ : st.countAlignment = (st.geneExp.length : Int))
    (h₂ : ∀ (k : Nat) (e : geneExpression), st.geneExp[k]? = some e →
      e.express = (k : Int) + 1) :
    (countRecord keys st r).countAlignment = ((countRecord keys st r).geneExp.length : Int) ∧
    ∀ (k : Nat) (e : geneExpression), (countRecord keys st r).geneExp[k]? = some e →
      e.express = (k : Int) + 1 := by
  rw [countRecord_eq keys hk]
  by_cases hm : r.position ∈ keys
  · simp only [hm, if_true]
    refine ⟨by simp [h₁], ?_⟩
    intro k e hke
    by_cases hlt : k < st.geneExp.length
    · rw [List.getElem?_append_left hlt] at hke
      exact h₂ k e hke
    · rw [List.getElem?_append_right (by omega)] at hke
      have hk0 : k - st.geneExp.length = 0 := by
        by_contra hne
        have : ([{ gene := r.position, express := st.countAlignment + 1 }] :
            List geneExpression)[k - st.geneExp.length]? = none := by
          apply List.getElem?_eq_none
          simp; omega
        rw [this] at hke
        exact absurd hke (by simp)
      rw [hk0] at hke
      have he : e = { gene := r.position, express := st.countAlignment + 1 } := by
        simpa using hke.symm
      have hkl : k = st.geneExp.length := by omega
      rw [he, h₁, hkl]
  · simp only [hm, if_false]
    exact ⟨h₁, h₂⟩

/-- The invariant holds after every record. -/
theorem foldl_countRecord_running (keys : List String) (hk : keys.Nodup)
    (rs : List geneAlign) :
    ∀ (st : CountState), st.countAlignment = (st.geneExp.length : Int) →
      (∀ (k : Nat) (e : geneExpression), st.geneExp[k]? = some e →
        e.express = (k : Int) + 1) →
      (rs.foldl (countRecord keys) st).countAlignment =
          ((rs.foldl (countRecord keys) st).geneExp.length : Int) ∧
        ∀ (k : Nat) (e : geneExpression),
          (rs.foldl (countRecord keys) st).geneExp[k]? = some e →
            e.express = (k : Int) + 1 := by
  induction rs with
  | nil => intro st h₁ h₂; exact ⟨h₁, h₂⟩
  | cons r rs ih =>
    intro st h₁ h₂
    have h := countRecord_running keys hk st r h₁ h₂
    exact ih (countRecord keys st r) h.1 h.2

/-! ## Helper lemmas on files with a line of `maxScanTokenSize` bytes or more -/

/-- The first bytes of a text that ends in a run of one byte. -/
theorem take_append_replicate (pre : List Char) (c : Char) (kept total : Nat)
    (h : kept ≤ total) :
    (pre ++ List.replicate total c).take (pre.length + kept) =
      pre ++ List.replicate kept c := by
  rw [List.take_append, List.take_replicate]
  congr 1
  rw [Nat.min_eq_left h]

/-- The scanner of a file made of one short line and, after it, a line that
starts with `pre` and goes on with `total` bytes `c`, of which `kept` fit in
the buffer with `pre`: `Scan` yields the short line and then returns false
with the first `maxScanTokenSize` bytes of the long line in its buffer. -/
theorem newScanner_line_then_long (line pre : List Char) (c : Char) (kept total : Nat)
    (hline : Char.ofNat 10 ∉ line) (hshort : line.length < maxScanTokenSize)
    (hcr : dropCR line = line) (hpre : Char.ofNat 10 ∉ pre)
    (hc₁ : c ≠ Char.ofNat 10) (hc₂ : c ≠ Char.ofNat 13)
    (hkept : 0 < kept) (hle : kept ≤ total)
    (hsize : pre.length + kept = maxScanTokenSize) :
    newScanner (String.mk (line ++ Char.ofNat 10 :: (pre ++ List.replicate total c))) =
      { tokens := [String.mk line],
        buffered := some (String.mk (pre ++ List.replicate kept c)) } := by
  have hlong : Char.ofNat 10 ∉ pre ++ List.replicate total c := by
    intro h
    rcases List.mem_append.mp h with h | h
    · exact hpre h
    · exact hc₁ (List.eq_of_mem_replicate h).symm
  have hlen : maxScanTokenSize ≤ (pre ++ List.replicate total c).length := by
    rw [List.length_append, List.length_replicate, ← hsize]
    omega
  have hnot : ¬ maxScanTokenSize ≤ line.length := by omega
  have htake : (pre ++ List.replicate total c).take maxScanTokenSize =
      pre ++ List.replicate kept c := by
    rw [← hsize]
    exact take_append_replicate pre c kept total hle
  have hdrop : dropCR (pre ++ List.replicate kept c) = pre ++ List.replicate kept c := by
    obtain ⟨k, rfl⟩ := Nat.exists_eq_succ_of_ne_zero (Nat.pos_iff_ne_zero.mp hkept)
    rw [List.replicate_succ', ← List.append_assoc]
    exact dropCR_append_singleton _ c hc₂
  unfold newScanner
  rw [show (String.mk (line ++ Char.ofNat 10 :: (pre ++ List.replicate total c))).toList =
    line ++ Char.ofNat 10 :: (pre ++ List.replicate total c) from rfl,
    splitLines_append_feed line _ hline, splitLines_no_feed _ hlong]
  simp only [scanPieces, hnot, hlen, if_false, if_true, htake, hdrop, hcr]

/-- The body of the loop that fills `uniquegenes`, on a token that starts with
the fields `r2`, `0`, `geneA`, `x`, `y` and goes on without a space. -/
theorem uniquegenesBody_long_token (tail : List Char) (htail : ' ' ∉ tail) :
    uniquegenesBody (String.mk ("r2 0 geneA x y ".toList ++ tail)) [] =
      .ok [("geneA", "y")] := by
  have hs : splitChars ("r2 0 geneA x y ".toList ++ tail) =
      [['r', '2'], ['0'], ['g', 'e', 'n', 'e', 'A'], ['x'], ['y'], tail] := by
    have h := splitChars_intercalate ['r', '2']
      [['0'], ['g', 'e', 'n', 'e', 'A'], ['x'], ['y'], tail]
      (by
        intro g hg
        simp only [List.mem_cons, List.mem_singleton, List.not_mem_nil, or_false] at hg
        rcases hg with rfl | rfl | rfl | rfl | rfl | rfl
        · decide
        · decide
        · decide
        · decide
        · decide
        · exact htail)
    rw [← h]
    simp [List.intercalate, List.intersperse]
  unfold uniquegenesBody split
  rw [show (String.mk ("r2 0 geneA x y ".toList ++ tail)).toList =
    "r2 0 geneA x y ".toList ++ tail from rfl, hs]
  rfl

/-- The scanner of a file of lines that are non-empty, shorter than
`maxScanTokenSize`, without a line feed and without a trailing carriage
return, joined by line feeds: every line is a token and nothing is buffered. -/
theorem newScanner_lines (p : List Char) (rest : List (List Char))
    (h : ∀ q ∈ p :: rest,
      Char.ofNat 10 ∉ q ∧ q.length < maxScanTokenSize ∧ q ≠ [] ∧ dropCR q = q) :
    newScanner (String.mk (List.intercalate [Char.ofNat 10] (p :: rest))) =
      { tokens := (p :: rest).map String.mk, buffered := none } := by
  unfold newScanner
  rw [show (String.mk (List.intercalate [Char.ofNat 10] (p :: rest))).toList =
    List.intercalate [Char.ofNat 10] (p :: rest) from rfl,
    splitLines_intercalate p rest (fun q hq => (h q hq).1)]
  exact scanPieces_short p rest (fun q hq => (h q hq).2)

/-- The annotation-parsing loop on a file of one gene line for `geneA`
followed by `n` gene lines for `geneB`, all of length 1000. -/
theorem annotation_run_many_genes (n : Nat) :
    scanLoop annotationBody
        (newScanner (String.mk (List.intercalate [Char.ofNat 10]
          ("geneA src gene 0 1000".toList ::
            List.replicate n "geneB src gene 0 1000".toList)))) [] =
      .ok (⟨"geneA", "0", "1000"⟩ :: List.replicate n ⟨"geneB", "0", "1000"⟩,
        { tokens := [], buffered := none }) := by
  have hA : Char.ofNat 10 ∉ "geneA src gene 0 1000".toList ∧
      "geneA src gene 0 1000".toList.length < maxScanTokenSize ∧
      "geneA src gene 0 1000".toList ≠ [] ∧
      dropCR "geneA src gene 0 1000".toList = "geneA src gene 0 1000".toList := by decide
  have hB : Char.ofNat 10 ∉ "geneB src gene 0 1000".toList ∧
      "geneB src gene 0 1000".toList.length < maxScanTokenSize ∧
      "geneB src gene 0 1000".toList ≠ [] ∧
      dropCR "geneB src gene 0 1000".toList = "geneB src gene 0 1000".toList := by decide
  rw [newScanner_lines _ _ (by
    intro q hq
    rcases List.mem_cons.mp hq with rfl | hq
    · exact hA
    · rw [List.eq_of_mem_replicate hq]; exact hB)]
  have hbA : ∀ a, annotationBody (String.mk "geneA src gene 0 1000".toList) a =
      .ok (a ++ [⟨"geneA", "0", "1000"⟩]) := by
    intro a
    rw [annotationBody_ok _ (fun _ => by decide) a]
    rfl
  have hbB : ∀ a, annotationBody (String.mk "geneB src gene 0 1000".toList) a =
      .ok (a ++ [⟨"geneB", "0", "1000"⟩]) := by
    intro a
    rw [annotationBody_ok _ (fun _ => by decide) a]
    rfl
  have hrest : ∀ (m : Nat) (acc : List geneStruct),
      scanLoopFrom annotationBody none
          (List.replicate m (String.mk "geneB src gene 0 1000".toList)) acc =
        .ok (acc ++ List.replicate m ⟨"geneB", "0", "1000"⟩,
          { tokens := [], buffered := none }) := by
    intro m
    induction m with
    | zero => intro acc; simp [scanLoopFrom]
    | succ m ih =>
      intro acc
      simp only [List.replicate_succ, scanLoopFrom, hbB, ih]
      simp
  simp only [scanLoop, List.map_cons, List.map_replicate, scanLoopFrom, hbA, hrest]
  simp

/-- A file with a piece of `maxScanTokenSize` bytes or more stops the scanner
with a full buffer: the first `maxScanTokenSize` bytes of such a piece, without
a trailing carriage return. -/
theorem scanPieces_buffered_some (pieces : List (List Char))
    (h : ∃ p ∈ pieces, maxScanTokenSize ≤ p.length) :
    ∃ p ∈ pieces, maxScanTokenSize ≤ p.length ∧
      (scanPieces pieces).buffered = some (String.mk (dropCR (p.take maxScanTokenSize))) := by
  induction pieces with
  | nil =>
    obtain ⟨p, hp, _⟩ := h
    exact absurd hp (List.not_mem_nil p)
  | cons q rest ih =>
    by_cases hq : maxScanTokenSize ≤ q.length
    · cases rest with
      | nil => exact ⟨q, by simp, hq, by simp [scanPieces, hq]⟩
      | cons r more => exact ⟨q, by simp, hq, by simp [scanPieces, hq]⟩
    · obtain ⟨p, hp, hlen⟩ := h
      have hprest : p ∈ rest := by
        rcases List.mem_cons.mp hp with rfl | hp'
        · exact absurd hlen hq
        · exact hp'
      cases rest with
      | nil => exact absurd hprest (List.not_mem_nil p)
      | cons r more =>
        obtain ⟨p', hp', hlen', ht⟩ := ih ⟨p, hprest, hlen⟩
        exact ⟨p', List.mem_cons_of_mem _ hp', hlen',
          by simp only [scanPieces, hq, if_false, ht]⟩

/-- The two scanner loops over an alignment file made of the line
`r1 0 geneA geneA 60` and of a line that starts with `r2 0 geneA x y ` and goes
on with `total` bytes `x`, of which `kept` fit in the buffer: the
alignment-parsing loop builds one record and leaves the full buffer in the
scanner, and the loop that fills `uniquegenes` runs once, on that buffer. -/
theorem alignment_run_long_line (kept total : Nat) (hkept : 0 < kept) (hle : kept ≤ total)
    (hsize : "r2 0 geneA x y ".toList.length + kept = maxScanTokenSize) :
    scanLoop alignmentBody
        (newScanner (String.mk ("r1 0 geneA geneA 60".toList ++ Char.ofNat 10 ::
          ("r2 0 geneA x y ".toList ++ List.replicate total 'x')))) [] =
      .ok ([⟨"geneA", "geneA"⟩],
        { tokens := [String.mk ("r2 0 geneA x y ".toList ++ List.replicate kept 'x')],
          buffered := none }) ∧
    scanLoop uniquegenesBody
        { tokens := [String.mk ("r2 0 geneA x y ".toList ++ List.replicate kept 'x')],
          buffered := none } [] =
      .ok ([("geneA", "y")], { tokens := [], buffered := none }) := by
  constructor
  · rw [newScanner_line_then_long "r1 0 geneA geneA 60".toList "r2 0 geneA x y ".toList 'x'
      kept total (by decide) (by decide) (by decide) (by decide) (by decide) (by decide)
      hkept hle hsize]
    have hbody : alignmentBody (String.mk "r1 0 geneA geneA 60".toList) [] =
        .ok [⟨"geneA", "geneA"⟩] := by decide
    simp only [scanLoop, scanLoopFrom, hbody]
    rfl
  · have hbody := uniquegenesBody_long_token (List.replicate kept 'x')
      (fun h => absurd (List.eq_of_mem_replicate h) (by decide))
    simp only [scanLoop, scanLoopFrom, hbody]
    rfl

/-- The run of `analyzeFunc` once its three scanner loops have completed. -/
theorem analyzeFunc_of_loops (order : Nat → List String → List String)
    (samFile gtfFile : String) (recs : List geneAlign) (fRead : Scanner)
    (anns : List geneStruct) (gRead : Scanner) (uniquegenes : List (String × String))
    (sc : Scanner) (iter : Nat → List String)
    (hsam : scanLoop alignmentBody (newScanner samFile) [] = .ok (recs, fRead))
    (hgtf : scanLoop annotationBody (newScanner gtfFile) [] = .ok (anns, gRead))
    (huniq : scanLoop uniquegenesBody fRead [] = .ok (uniquegenes, sc))
    (hiter : (fun i => order i (uniquegenes.map (fun kv => kv.1))) = iter) :
    analyzeFunc order samFile gtfFile = analyzeStages iter recs anns := by
  subst hiter
  simp only [analyzeFunc, hsam, hgtf, huniq]

/-! ## C1: what decides whether a record is counted -/

/-- C1 at failing inputs.  The annotation holds the single gene
`geneA = [0, 1000)` and `uniquegenes` has the key `geneA`.  A record on
reference `geneA` at position 500 lies in that interval and in no other, so the
spec's lookup assigns it to `geneA`; the counting loop compares the key with
the record's position field, `500`, not with its gene field, and counts the
record for no gene.  A record on reference `chrX` whose position field is the
text `geneA` lies in no interval of its reference, yet the loop counts it for
`geneA`. -/
theorem c1_interval_assignment_fails :
    (specLookupGeneAt [⟨"geneA", "0", "1000"⟩] "geneA" (atoi "500") = some "geneA" ∧
      (countingLoop (fun _ => ["geneA"]) [⟨"geneA", "500"⟩]).geneExp = []) ∧
    (specLookupGeneAt [⟨"geneA", "0", "1000"⟩] "chrX" (atoi "geneA") = none ∧
      (countingLoop (fun _ => ["geneA"]) [⟨"chrX", "geneA"⟩]).geneExp = [⟨"geneA", 1⟩]) := by
  decide

/-! ## C2: the RPK value -/

/-- C2, as stated, fails: for the count 3 and the length 1500 the exact
rational `1000 * 3 / 1500` is 2, and the RPK stage computes 3, because
`1500 / 1000` is the integer 1. -/
theorem c2_rpk_not_exact_rational :
    rpkLoop [⟨"g", 3⟩] ["g"] [1500] = .ok [3] ∧
    ((1000 : ℚ) * 3 / 1500 = 2) ∧
    rpkLoop [⟨"g", 3⟩] ["g"] [1500] ≠ .ok [2] := by
  refine ⟨by decide, by norm_num, by decide⟩

/-- C2, amended: with integer arithmetic.  For every gene `g` with a count
`c` that is a non-negative `int` and a length `L` that is an `int` of at least
1000, the RPK value computed for `g` is the quotient `c / (L / 1000)`, both
divisions rounding down: the two divisions of line 157 do not panic and give
`L / 1000` and `c / (L / 1000)`; the stage run on `g` alone returns this one
value; and in any run, each execution of the loop body for an entry of `g`
with the count `c`, where the length read is `L`, appends this value. -/
theorem c2_rpk_is_integer_quotient (g : String) (c L : Int)
    (hc : 0 ≤ c ∧ c < 2 ^ 63) (hL : 1000 ≤ L ∧ L < 2 ^ 63) :
    (goDiv L 1000 = .ok (L / 1000) ∧ goDiv c (L / 1000) = .ok (c / (L / 1000))) ∧
    rpkLoop [⟨g, c⟩] [g] [L] = .ok [c / (L / 1000)] ∧
    (∀ (geneExp : List geneExpression) (genenames : List String) (genelength : List Int)
      (i : Nat) (geneRPK : List Int),
      geneExp[i]? = some ⟨g, c⟩ → genenames[i]? = some g → genelength[i]? = some L →
        rpkBody geneExp genenames genelength i geneRPK =
          .ok (geneRPK ++ [c / (L / 1000)])) := by
  have hbody : ∀ (geneExp : List geneExpression) (genenames : List String)
      (genelength : List Int) (i : Nat) (geneRPK : List Int),
      geneExp[i]? = some ⟨g, c⟩ → genenames[i]? = some g → genelength[i]? = some L →
        rpkBody geneExp genenames genelength i geneRPK =
          .ok (geneRPK ++ [c / (L / 1000)]) := by
    intro geneExp genenames genelength i geneRPK h₁ h₂ h₃
    rw [rpkBody_ok geneExp genenames genelength i ⟨g, c⟩ g L h₁ h₂ h₃ hc hL geneRPK]
    simp
  have hkb : Int.tdiv L 1000 = L / 1000 := Int.tdiv_eq_ediv (by omega) (by norm_num)
  have hkb₁ : 1 ≤ L / 1000 := by omega
  have hkb₂ : L / 1000 < 2 ^ 63 := by omega
  have hq : Int.tdiv c (L / 1000) = c / (L / 1000) := Int.tdiv_eq_ediv hc.1 (by omega)
  have hq₁ : 0 ≤ c / (L / 1000) := Int.ediv_nonneg hc.1 (by omega)
  have hq₂ : c / (L / 1000) ≤ c := Int.ediv_le_self _ hc.1
  refine ⟨⟨?_, ?_⟩, ?_, hbody⟩
  · rw [goDiv_of_ne_zero L 1000 (by norm_num), hkb, wrap64_of_range _ (by omega) hkb₂]
  · rw [goDiv_of_ne_zero c (L / 1000) (by omega), hq,
      wrap64_of_range _ (by omega) (by omega)]
  · have houter := forRangeFrom_append
      (fun i acc => forRange [L].length
        (fun _ acc' => rpkBody [⟨g, c⟩] [g] [L] i acc') acc)
      (fun _ => [c / (L / 1000)]) 1 0 []
      (fun i _ hi a => by
        have hi0 : i = 0 := by omega
        subst hi0
        have h' := forRangeFrom_append
          (fun _ acc' => rpkBody [⟨g, c⟩] [g] [L] 0 acc') (fun _ => [c / (L / 1000)]) 1 0 a
          (fun _ _ _ a' => hbody [⟨g, c⟩] [g] [L] 0 a' rfl rfl rfl)
        simpa [forRange] using h')
    simpa [rpkLoop, forRange] using houter

/-- C2, amended, at a concrete input: the count 3 and the length 1500 give 3 for
the gene alone, and also as the value the body appends when the annotation
has a second gene, of length 500, without reads. -/
theorem c2_rpk_is_integer_quotient_witness :
    rpkLoop [⟨"g", 3⟩] ["g"] [1500] = .ok [3 / (1500 / 1000)] ∧
    rpkBody [⟨"g", 3⟩] ["g", "h"] [1500, 500] 0 [] = .ok ([] ++ [3 / (1500 / 1000)]) :=
  ⟨(c2_rpk_is_integer_quotient "g" 3 1500 (by decide) (by decide)).2.1,
    (c2_rpk_is_integer_quotient "g" 3 1500 (by decide) (by decide)).2.2
      [⟨"g", 3⟩] ["g", "h"] [1500, 500] 0 [] rfl rfl rfl⟩

/-! ## C3: scale and final values -/

/-- C3, as stated, fails.  Scenario A is the annotation `geneA = [0, 1000)`
with five reads; the key of `uniquegenes` is `geneA`.
* Five records at position 100 on `geneA`: no position field is a key,
  `geneExp` and `geneRPK` stay empty and the run panics on `geneRPK[0]`.
* Five records whose position field is the key: `geneExp` gets five entries
  and the RPK loop panics on `genenames[1]`.
* The count 5 for `geneA` handed to the normalisation stages: the RPK value is
  5, the sum is 5, the integer scale `5 / 1000000` is 0 and the final division
  panics.
In none of them is the final value 1,000,000.  And where the scale is not
zero the final values need not sum to 1,000,000: one matched read and an
annotation of 1,500,000 gene lines give the scale 1 and final values that sum
to 1,500,000. -/
theorem c3_final_values_not_per_million :
    analyzeStages (fun _ => ["geneA"]) (List.replicate 5 ⟨"geneA", "100"⟩)
        [⟨"geneA", "0", "1000"⟩] = .error .indexOutOfRange ∧
    analyzeStages (fun _ => ["geneA"]) (List.replicate 5 ⟨"geneA", "geneA"⟩)
        [⟨"geneA", "0", "1000"⟩] = .error .indexOutOfRange ∧
    (rpkLoop [⟨"geneA", 5⟩] ["geneA"] [1000] = .ok [5] ∧ scaleOf [5] = 0 ∧
      normalize [⟨"geneA", 5⟩] ["geneA"] [1000] = .error .divideByZero) ∧
    (∃ table,
      analyzeStages (fun _ => ["geneA"]) [⟨"geneA", "geneA"⟩]
          (⟨"geneA", "0", "1000"⟩ :: List.replicate 1499999 ⟨"geneB", "0", "1000"⟩) =
        .ok table ∧
      (table.map (fun x => x.expressCount)).sum = 1500000) := by
  refine ⟨by decide, by decide, by decide, ?_⟩
  have hscale : scaleOf (List.replicate
      ((List.replicate 1499999 (⟨"geneB", "0", "1000"⟩ : geneStruct)).length + 1) 1) = 1 := by
    rw [List.length_replicate]
    unfold scaleOf
    rw [sum_replicate_one _ (by norm_num)]
    decide
  refine ⟨_, analyzeStages_single_read ⟨"geneA", "0", "1000"⟩
    (List.replicate 1499999 ⟨"geneB", "0", "1000"⟩) ⟨"geneA", "geneA"⟩ rfl (by decide) hscale,
    ?_⟩
  rw [List.map_cons, List.map_cons, List.map_replicate, List.map_replicate, List.sum_cons,
    List.sum_replicate]
  norm_num

/-- C3, amended: with integer arithmetic and a non-zero scale.  When the
integer `scale = sum(geneRPK) / 1000000` is not zero and `geneRPK` has at
least as many values as there are gene names, the expression loop completes
and its `i`-th entry pairs `genenames[i]` with the quotient
`geneRPK[i] / scale` truncated toward zero. -/
theorem c3_final_value_is_integer_quotient (genenames : List String)
    (geneRPK : List Int) (hs : scaleOf geneRPK ≠ 0)
    (hl : genenames.length ≤ geneRPK.length) :
    expressionLoop genenames geneRPK (scaleOf geneRPK) =
      .ok (List.zipWith
        (fun name r =>
          ({ gene := name, expressCount := wrap64 (Int.tdiv r (scaleOf geneRPK)) } :
            expressCount))
        genenames geneRPK) := by
  have h := forRangeFrom_expressionBody (scaleOf geneRPK) hs genenames [] [] geneRPK []
    rfl hl
  simpa [expressionLoop, forRange] using h

/-- C3, amended, at a concrete input: two genes with the RPK values 3,000,000
and 1,000,000, so the scale is 4. -/
theorem c3_final_value_is_integer_quotient_witness :
    expressionLoop ["g", "h"] [3000000, 1000000] (scaleOf [3000000, 1000000]) =
      .ok (List.zipWith
        (fun name r =>
          ({ gene := name,
             expressCount := wrap64 (Int.tdiv r (scaleOf [3000000, 1000000])) } :
            expressCount))
        ["g", "h"] [3000000, 1000000]) :=
  c3_final_value_is_integer_quotient ["g", "h"] [3000000, 1000000] (by decide) (by decide)

/-! ## C4: a scale of zero -/

/-- C4 at failing inputs; the key of `uniquegenes` is `geneA` and a matched
record carries `geneA` in its position field.
* One matched read, gene `geneA` of length 2000: the RPK value is
  `1 / (2000 / 1000) = 0`, the sum is 0, the scale is 0, and the expression loop
  divides by it: the run panics with a division by zero.
* One matched read, gene of length 1000: the sum is 1, the scale is 0, and the
  run again divides by the zero scale.
* No alignment record and one gene: the sum and the scale are 0 and the run
  panics on `geneRPK[0]`.
* No alignment record and no gene: the run completes normally with the scale
  0 and an empty table. -/
theorem c4_zero_scale_is_not_guarded :
    (rpkLoop (countingLoop (fun _ => ["geneA"]) [⟨"geneA", "geneA"⟩]).geneExp
        ["geneA"] [2000] = .ok [0] ∧ sum [0] = 0 ∧ scaleOf [0] = 0 ∧
      analyzeStages (fun _ => ["geneA"]) [⟨"geneA", "geneA"⟩] [⟨"geneA", "0", "2000"⟩] =
        .error .divideByZero) ∧
    (rpkLoop (countingLoop (fun _ => ["geneA"]) [⟨"geneA", "geneA"⟩]).geneExp
        ["geneA"] [1000] = .ok [1] ∧ scaleOf [1] = 0 ∧
      analyzeStages (fun _ => ["geneA"]) [⟨"geneA", "geneA"⟩] [⟨"geneA", "0", "1000"⟩] =
        .error .divideByZero) ∧
    (sum [] = 0 ∧ scaleOf [] = 0 ∧
      analyzeStages (fun _ => []) [] [⟨"geneA", "0", "1000"⟩] = .error .indexOutOfRange) ∧
    analyzeStages (fun _ => []) [] [] = .ok [] := by
  decide

/-! ## C5: the divisor of the RPK stage -/

/-- C5 at failing inputs; the key of `uniquegenes` is `geneA` and the one
record is matched to it.  For the gene `geneA` with start 0 and end 500 the
length is 500, the divisor `500 / 1000` is 0 and the RPK stage panics with a
division by zero; for start 7 and end 7 the length is 0, no data error is
raised, and the stage panics in the same way. -/
theorem c5_rpk_divides_by_zero :
    (geneLengthLoop [⟨"geneA", "0", "500"⟩] = (["geneA"], [500]) ∧
      goDiv 500 1000 = .ok 0 ∧
      rpkLoop (countingLoop (fun _ => ["geneA"]) [⟨"geneA", "geneA"⟩]).geneExp
        ["geneA"] [500] = .error .divideByZero ∧
      analyzeStages (fun _ => ["geneA"]) [⟨"geneA", "geneA"⟩] [⟨"geneA", "0", "500"⟩] =
        .error .divideByZero) ∧
    (geneLengthLoop [⟨"geneA", "7", "7"⟩] = (["geneA"], [0]) ∧
      goDiv 0 1000 = .ok 0 ∧
      rpkLoop (countingLoop (fun _ => ["geneA"]) [⟨"geneA", "geneA"⟩]).geneExp
        ["geneA"] [0] = .error .divideByZero ∧
      analyzeStages (fun _ => ["geneA"]) [⟨"geneA", "geneA"⟩] [⟨"geneA", "7", "7"⟩] =
        .error .divideByZero) := by
  decide

/-! ## C6: the entries of the final table -/

/-- C6 at a failing input on which the run completes.  The key of
`uniquegenes` is the name of the first annotation gene, whose length is 1000;
the one alignment record is matched to it; the annotation has 1,000,000 gene
lines.  The RPK loop appends the value 1 of the first gene once per element
of `genelength`, so `geneRPK` holds 1,000,000 ones and the scale is 1.  The run
completes, and the table gives the value 1 to every gene of the annotation,
also to the 999,999 genes to which no read was assigned, where the claim has
the value 0 for them. -/
theorem c6_genes_without_reads_get_a_value (first : geneStruct) (rest : List geneStruct)
    (r : geneAlign) (hr : r.position = first.gene)
    (hfirst : wrap64 (atoi first.end_ - atoi first.start) = 1000)
    (hlen : rest.length = 999999) :
    analyzeStages (fun _ => [first.gene]) [r] (first :: rest) =
      .ok ((first :: rest).map
        (fun g => ({ gene := g.gene, expressCount := 1 } : expressCount))) := by
  refine analyzeStages_single_read first rest r hr hfirst ?_
  rw [hlen]
  unfold scaleOf
  rw [sum_replicate_one _ (by norm_num)]
  decide

/-- C6 at a concrete failing input: the annotation is one line for `geneA`
followed by 999,999 lines for `geneB`, and the one read is matched to
`geneA`. -/
theorem c6_genes_without_reads_get_a_value_witness :
    analyzeStages (fun _ => ["geneA"]) [⟨"geneA", "geneA"⟩]
        (⟨"geneA", "0", "1000"⟩ :: List.replicate 999999 ⟨"geneB", "0", "1000"⟩) =
      .ok (((⟨"geneA", "0", "1000"⟩ :: List.replicate 999999 ⟨"geneB", "0", "1000"⟩ :
          List geneStruct)).map
        (fun g => ({ gene := g.gene, expressCount := 1 } : expressCount))) :=
  c6_genes_without_reads_get_a_value ⟨"geneA", "0", "1000"⟩
    (List.replicate 999999 ⟨"geneB", "0", "1000"⟩) ⟨"geneA", "geneA"⟩ rfl (by decide)
    (List.length_replicate _ _)

/-- The same defect on a small input of the normalisation stages: the
annotation has the genes `A` and `B`, both of length 1000, and `geneExp` has one
entry, for `A`, with the count 2,000,000.  The value of `A` is appended twice,
the scale is 4, and the table gives 500,000 to `A` and to `B`.  With the one
entry for `B` instead, nothing is appended and the run panics on
`geneRPK[0]`. -/
theorem normalize_values_not_aligned_example :
    rpkLoop [⟨"A", 2000000⟩] ["A", "B"] [1000, 1000] = .ok [2000000, 2000000] ∧
    scaleOf [2000000, 2000000] = 4 ∧
    normalize [⟨"A", 2000000⟩] ["A", "B"] [1000, 1000] =
      .ok [⟨"A", 500000⟩, ⟨"B", 500000⟩] ∧
    normalize [⟨"B", 2000000⟩] ["A", "B"] [1000, 1000] = .error .indexOutOfRange := by
  decide

/-! ## C7: the value stored in `express` -/

/-- C7 at a failing input.  The keys are `geneA` and `geneB`; one record is
matched to `geneB`, then five records are matched to `geneA`.  The entries of
`geneA` carry the values 2, 3, 4, 5, 6 of the shared counter `countAlignment`:
none of them is the per-gene count its position calls for (1 to 5), and the
last is 6 where five reads were assigned to `geneA`. -/
theorem c7_express_is_shared_counter :
    (countingLoop (fun _ => ["geneA", "geneB"])
        [⟨"r0", "geneB"⟩, ⟨"r1", "geneA"⟩, ⟨"r2", "geneA"⟩, ⟨"r3", "geneA"⟩,
          ⟨"r4", "geneA"⟩, ⟨"r5", "geneA"⟩]).geneExp =
      [⟨"geneB", 1⟩, ⟨"geneA", 2⟩, ⟨"geneA", 3⟩, ⟨"geneA", 4⟩, ⟨"geneA", 5⟩, ⟨"geneA", 6⟩] := by
  decide

/-! ## C8: zero or one entry per record -/

/-- C8: for every list of alignment records and every set of distinct keys of
`uniquegenes`, iterated in any order, a record appends no entry or exactly one
entry to `geneExp`; the final `countAlignment` is the number of entries, and
that number plus the number of records whose position field is no key is the
number of records. -/
theorem c8_zero_or_one_entry_per_record (keys : List String) (hk : keys.Nodup)
    (iter : Nat → List String) (hi : ∀ i, (iter i).Perm keys)
    (recs : List geneAlign) :
    (∀ (i : Nat) (st : CountState) (r : geneAlign),
      (countRecord (iter i) st r).geneExp = st.geneExp ∨
        ∃ e, (countRecord (iter i) st r).geneExp = st.geneExp ++ [e]) ∧
    (countingLoop iter recs).countAlignment = ((countingLoop iter recs).geneExp.length : Int) ∧
    (countingLoop iter recs).geneExp.length +
        (recs.filter (fun r => !decide (r.position ∈ keys))).length = recs.length := by
  refine ⟨?_, ?_, ?_⟩
  · intro i st r
    rw [countRecord_perm keys (iter i) hk (hi i), countRecord_eq keys hk]
    by_cases h : r.position ∈ keys
    · right
      exact ⟨⟨r.position, st.countAlignment + 1⟩, by simp [h]⟩
    · left
      simp [h]
  · unfold countingLoop
    rw [countingLoopFrom_sched keys hk iter hi]
    have h := foldl_countRecord_count keys hk recs { countAlignment := 0, geneExp := [] }
    rw [h.1, h.2]
    simp
  · unfold countingLoop
    rw [countingLoopFrom_sched keys hk iter hi]
    have h := foldl_countRecord_count keys hk recs { countAlignment := 0, geneExp := [] }
    rw [h.2]
    simpa using (List.length_eq_length_filter_add (l := recs)
      (fun r => decide (r.position ∈ keys))).symm

/-- C8 at a concrete input: three records, two of them matched. -/
theorem c8_zero_or_one_entry_per_record_witness :
    (countingLoop (fun i => if i % 2 = 0 then ["a", "b"] else ["b", "a"])
        [⟨"x", "b"⟩, ⟨"a", "7"⟩, ⟨"y", "a"⟩]).geneExp.length +
      (([⟨"x", "b"⟩, ⟨"a", "7"⟩, ⟨"y", "a"⟩] : List geneAlign).filter
        (fun r => !decide (r.position ∈ ["a", "b"]))).length = 3 :=
  (c8_zero_or_one_entry_per_record ["a", "b"] (by decide)
    (fun i => if i % 2 = 0 then ["a", "b"] else ["b", "a"])
    (by intro i; by_cases h : i % 2 = 0 <;> simp [h]; decide)
    [⟨"x", "b"⟩, ⟨"a", "7"⟩, ⟨"y", "a"⟩]).2.2

/-! ## C9: independence of the map iteration order -/

/-- C9: for every list of alignment records and every set of distinct keys,
two runs whose `range uniquegenes` statements visit the keys in different
orders (each run may even change the order from record to record) build the
same `geneExp` and the same counter, and the stages that follow give the same
outcome. -/
theorem c9_independent_of_map_iteration_order (keys : List String) (hk : keys.Nodup)
    (iter₁ iter₂ : Nat → List String)
    (h₁ : ∀ i, (iter₁ i).Perm keys) (h₂ : ∀ i, (iter₂ i).Perm keys)
    (recs : List geneAlign) (annot : List geneStruct) :
    countingLoop iter₁ recs = countingLoop iter₂ recs ∧
    analyzeStages iter₁ recs annot = analyzeStages iter₂ recs annot := by
  have h : countingLoop iter₁ recs = countingLoop iter₂ recs := by
    unfold countingLoop
    rw [countingLoopFrom_sched keys hk iter₁ h₁, countingLoopFrom_sched keys hk iter₂ h₂]
  exact ⟨h, by unfold analyzeStages; rw [h]⟩

/-- C9 at a concrete input: one run alternates between the two orders of the
keys `a`, `b`, the other always uses the order `a`, `b`. -/
theorem c9_independent_of_map_iteration_order_witness :
    countingLoop (fun i => if i % 2 = 0 then ["a", "b"] else ["b", "a"])
        [⟨"x", "b"⟩, ⟨"a", "7"⟩, ⟨"y", "a"⟩] =
      countingLoop (fun _ => ["a", "b"]) [⟨"x", "b"⟩, ⟨"a", "7"⟩, ⟨"y", "a"⟩] :=
  (c9_independent_of_map_iteration_order ["a", "b"] (by decide)
    (fun i => if i % 2 = 0 then ["a", "b"] else ["b", "a"]) (fun _ => ["a", "b"])
    (by intro i; by_cases h : i % 2 = 0 <;> simp [h]; decide)
    (fun _ => List.Perm.refl _)
    [⟨"x", "b"⟩, ⟨"a", "7"⟩, ⟨"y", "a"⟩] []).1

/-! ## C10: dependence on the record order -/

/-- C10, as stated, fails: with the keys `a` and `b`, the records with position
fields `a`, `b` give the entries `(a, 1), (b, 2)`, and the same two records in
the other order give `(b, 1), (a, 2)`. -/
theorem c10_record_order_changes_geneExp :
    List.Perm ([⟨"x", "a"⟩, ⟨"y", "b"⟩] : List geneAlign) [⟨"y", "b"⟩, ⟨"x", "a"⟩] ∧
    (countingLoop (fun _ => ["a", "b"]) [⟨"x", "a"⟩, ⟨"y", "b"⟩]).geneExp =
      [⟨"a", 1⟩, ⟨"b", 2⟩] ∧
    (countingLoop (fun _ => ["a", "b"]) [⟨"y", "b"⟩, ⟨"x", "a"⟩]).geneExp =
      [⟨"b", 1⟩, ⟨"a", 2⟩] ∧
    (countingLoop (fun _ => ["a", "b"]) [⟨"x", "a"⟩, ⟨"y", "b"⟩]).geneExp ≠
      (countingLoop (fun _ => ["a", "b"]) [⟨"y", "b"⟩, ⟨"x", "a"⟩]).geneExp := by
  decide

/-- C10, amended: for every list of alignment records and every permutation of
it, the counting loop appends the same number of entries, ends with the same
`countAlignment`, and the gene names of `geneExp` for the permuted list are a
permutation of those for the original list (every key receives the same
number of entries). -/
theorem c10_permuted_records_same_genes_up_to_order (keys : List String) (hk : keys.Nodup)
    (iter₁ iter₂ : Nat → List String)
    (h₁ : ∀ i, (iter₁ i).Perm keys) (h₂ : ∀ i, (iter₂ i).Perm keys)
    (recs recs' : List geneAlign) (hp : recs.Perm recs') :
    (countingLoop iter₁ recs).geneExp.length = (countingLoop iter₂ recs').geneExp.length ∧
    (countingLoop iter₁ recs).countAlignment = (countingLoop iter₂ recs').countAlignment ∧
    ((countingLoop iter₁ recs).geneExp.map (fun e => e.gene)).Perm
      ((countingLoop iter₂ recs').geneExp.map (fun e => e.gene)) := by
  have hf := hp.filter (fun r => decide (r.position ∈ keys))
  unfold countingLoop
  rw [countingLoopFrom_sched keys hk iter₁ h₁, countingLoopFrom_sched keys hk iter₂ h₂]
  have c := foldl_countRecord_count keys hk recs { countAlignment := 0, geneExp := [] }
  have c' := foldl_countRecord_count keys hk recs' { countAlignment := 0, geneExp := [] }
  refine ⟨?_, ?_, ?_⟩
  · rw [c.2, c'.2, hf.length_eq]
  · rw [c.1, c'.1, hf.length_eq]
  · rw [foldl_countRecord_genes keys hk, foldl_countRecord_genes keys hk]
    simpa using hf.map (fun r => r.position)

/-- C10, amended, at a concrete input: the two records of the counterexample
in both orders. -/
theorem c10_permuted_records_same_genes_up_to_order_witness :
    ((countingLoop (fun _ => ["a", "b"]) [⟨"x", "a"⟩, ⟨"y", "b"⟩]).geneExp.map
        (fun e => e.gene)).Perm
      ((countingLoop (fun _ => ["b", "a"]) [⟨"y", "b"⟩, ⟨"x", "a"⟩]).geneExp.map
        (fun e => e.gene)) :=
  (c10_permuted_records_same_genes_up_to_order ["a", "b"] (by decide)
    (fun _ => ["a", "b"]) (fun _ => ["b", "a"])
    (fun _ => List.Perm.refl _)
    (fun _ => (by decide : List.Perm ["b", "a"] ["a", "b"]))
    [⟨"x", "a"⟩, ⟨"y", "b"⟩] [⟨"y", "b"⟩, ⟨"x", "a"⟩] (by decide)).2.2

/-! ## C11: which fields the alignment record is built from -/

/-- C11, as stated, fails.  The line `r1<TAB>0<TAB>chr1<TAB>100` does not begin
with `@` and has the four whitespace-delimited fields `r1`, `0`, `chr1`, `100`,
but it holds no space, so `strings.Split(line, " ")` has one piece and the loop
panics on index 2.  The line `r1  0 chr1 100`, with two spaces after `r1`, has
the same four whitespace-delimited fields, and the record built from it has
the reference name `0` and the position `chr1`. -/
theorem c11_whitespace_fields_not_used :
    (specFields "r1\t0\tchr1\t100" = ["r1", "0", "chr1", "100"] ∧
      hasPrefix "r1\t0\tchr1\t100" "@" = false ∧
      split "r1\t0\tchr1\t100" = ["r1\t0\tchr1\t100"] ∧
      scanLoop alignmentBody { tokens := ["r1\t0\tchr1\t100"], buffered := none } [] =
        .error .indexOutOfRange) ∧
    (specFields "r1  0 chr1 100" = ["r1", "0", "chr1", "100"] ∧
      hasPrefix "r1  0 chr1 100" "@" = false ∧
      split "r1  0 chr1 100" = ["r1", "", "0", "chr1", "100"] ∧
      scanLoop alignmentBody { tokens := ["r1  0 chr1 100"], buffered := none } [] =
        .ok ([⟨"0", "chr1"⟩], { tokens := [], buffered := none })) := by
  decide

/-- C11, amended: the fields are the pieces between single spaces.  For every
line that is at least four fields, none of which holds a space, joined by
single spaces, and that does not begin with `@`, the alignment-parsing loop
completes and the record it builds has the third of these fields as
reference name and the fourth as position. -/
theorem c11_record_from_space_separated_fields (f : List Char) (fs : List (List Char))
    (hns : ∀ g ∈ f :: fs, ' ' ∉ g) (hlen : 4 ≤ (f :: fs).length)
    (hhead : hasPrefix (String.mk (List.intercalate [' '] (f :: fs))) "@" = false)
    (buffered : Option String) :
    scanLoop alignmentBody
        { tokens := [String.mk (List.intercalate [' '] (f :: fs))], buffered := buffered } [] =
      .ok ([{ gene := String.mk ((f :: fs).getD 2 []),
              position := String.mk ((f :: fs).getD 3 []) }],
        { tokens := buffered.toList, buffered := none }) := by
  have hs : split (String.mk (List.intercalate [' '] (f :: fs))) =
      (f :: fs).map String.mk := by
    unfold split
    rw [show (String.mk (List.intercalate [' '] (f :: fs))).toList =
      List.intercalate [' '] (f :: fs) from rfl, splitChars_intercalate f fs hns]
  have hl : 4 ≤ (split (String.mk (List.intercalate [' '] (f :: fs)))).length := by
    rw [hs, List.length_map]; exact hlen
  have hb := alignmentBody_ok (String.mk (List.intercalate [' '] (f :: fs)))
    (fun _ => hl) []
  have h2 : ((f :: fs).map String.mk).getD 2 "" = String.mk ((f :: fs).getD 2 []) :=
    getD_map_of_lt String.mk (f :: fs) 2 "" [] (by omega)
  have h3 : ((f :: fs).map String.mk).getD 3 "" = String.mk ((f :: fs).getD 3 []) :=
    getD_map_of_lt String.mk (f :: fs) 3 "" [] (by omega)
  rw [hhead, hs, h2, h3] at hb
  simp only [scanLoop, scanLoopFrom, hb]
  rfl

/-- C11, amended, at a concrete input: the line `r1 0 chr1 100 60`. -/
theorem c11_record_from_space_separated_fields_witness :
    scanLoop alignmentBody { tokens := ["r1 0 chr1 100 60"], buffered := none } [] =
      .ok ([⟨"chr1", "100"⟩], { tokens := [], buffered := none }) :=
  c11_record_from_space_separated_fields ['r', '1']
    [['0'], ['c', 'h', 'r', '1'], ['1', '0', '0'], ['6', '0']]
    (by decide) (by decide) (by decide) none

/-! ## C12: one record per non-header line -/

/-- C12: for every list of alignment lines in which each line not beginning
with `@` has at least four space-separated fields, the alignment-parsing loop
completes and yields, in input order, exactly one record for each line that
does not begin with `@` (built from its third and fourth fields) and none for
a line beginning with `@`; so the number of records is the number of
non-header lines. -/
theorem c12_one_record_per_non_header_line (lines : List String)
    (h : ∀ l ∈ lines, hasPrefix l "@" = false → 4 ≤ (split l).length)
    (buffered : Option String) :
    ∃ records,
      scanLoop alignmentBody { tokens := lines, buffered := buffered } [] =
        .ok (records, { tokens := buffered.toList, buffered := none }) ∧
      records = (lines.filter (fun l => !hasPrefix l "@")).map
        (fun l => ({ gene := (split l).getD 2 "", position := (split l).getD 3 "" } :
          geneAlign)) ∧
      records.length = (lines.filter (fun l => !hasPrefix l "@")).length := by
  have hloop := scanLoopFrom_append alignmentBody
    (fun l => if !hasPrefix l "@" then
      [({ gene := (split l).getD 2 "", position := (split l).getD 3 "" } : geneAlign)]
      else [])
    buffered lines [] (fun l hl a => alignmentBody_ok l (h l hl) a)
  rw [flatMap_ite_eq_map_filter (fun l => !hasPrefix l "@")] at hloop
  exact ⟨_, by simpa [scanLoop] using hloop, rfl, by simp⟩

/-- C12 at a concrete input: two headers and two data lines. -/
theorem c12_one_record_per_non_header_line_witness :
    ∃ records,
      scanLoop alignmentBody
          { tokens := ["@HD VN:1.0", "r1 0 chr1 100 60", "@SQ SN:chr1", "r2 16 chr2 5"],
            buffered := none } [] =
        .ok (records, { tokens := [], buffered := none }) ∧
      records = (["@HD VN:1.0", "r1 0 chr1 100 60", "@SQ SN:chr1", "r2 16 chr2 5"].filter
        (fun l => !hasPrefix l "@")).map
        (fun l => ({ gene := (split l).getD 2 "", position := (split l).getD 3 "" } :
          geneAlign)) ∧
      records.length = (["@HD VN:1.0", "r1 0 chr1 100 60", "@SQ SN:chr1", "r2 16 chr2 5"].filter
        (fun l => !hasPrefix l "@")).length :=
  c12_one_record_per_non_header_line
    ["@HD VN:1.0", "r1 0 chr1 100 60", "@SQ SN:chr1", "r2 16 chr2 5"] (by decide) none

/-! ## C13: a line with fewer than four fields -/

/-- C13 at failing inputs: an alignment file whose second line is empty, and
one whose second line has three fields.  The loop does not skip the short
line: `strings.Split(line, " ")[2]`, or `[3]`, is out of range and the run
panics, so the records of the other lines are never returned, whatever the
annotation file holds. -/
theorem c13_short_line_aborts_run :
    split "" = [""] ∧
    scanLoop alignmentBody
        { tokens := ["r1 0 chr1 100", "", "r2 0 chr1 200"], buffered := none } [] =
      .error .indexOutOfRange ∧
    scanLoop alignmentBody
        { tokens := ["r1 0 chr1 100", "r3 0 chr1", "r2 0 chr1 200"], buffered := none } [] =
      .error .indexOutOfRange ∧
    newScanner "r1 0 chr1 100\n\nr2 0 chr1 200\n" =
      { tokens := ["r1 0 chr1 100", "", "r2 0 chr1 200"], buffered := none } ∧
    (∀ (order : Nat → List String → List String) (gtfFile : String),
      analyzeFunc order "r1 0 chr1 100\n\nr2 0 chr1 200\n" gtfFile =
        .error .indexOutOfRange) := by
  refine ⟨by decide, by decide, by decide, by decide, ?_⟩
  intro order gtfFile
  have h : scanLoop alignmentBody (newScanner "r1 0 chr1 100\n\nr2 0 chr1 200\n") [] =
      .error .indexOutOfRange := by decide
  simp only [analyzeFunc, h]

/-! ## C14: the annotation records -/

/-- C14, as stated, fails, with fields read as whitespace-delimited.  The
tab-separated line `geneA<TAB>src<TAB>gene<TAB>0<TAB>1000` has five such fields, the
third of which is `gene`, but holds no space, so `strings.Split` has one
piece and the loop panics on index 2.  The line `geneA  src gene 0 1000`, with
two spaces after `geneA`, has the same five fields, and the loop drops it,
because its third space-separated piece is `src`.  The line `a  gene 5 9 x`
has `5` as third whitespace field, and the loop retains it, with the record
`(a, 5, 9)`, because its third space-separated piece is `gene`. -/
theorem c14_whitespace_fields_not_used :
    (specFields "geneA\tsrc\tgene\t0\t1000" = ["geneA", "src", "gene", "0", "1000"] ∧
      hasPrefix "geneA\tsrc\tgene\t0\t1000" "#" = false ∧
      scanLoop annotationBody
          { tokens := ["geneA\tsrc\tgene\t0\t1000"], buffered := none } [] =
        .error .indexOutOfRange) ∧
    (specFields "geneA  src gene 0 1000" = ["geneA", "src", "gene", "0", "1000"] ∧
      split "geneA  src gene 0 1000" = ["geneA", "", "src", "gene", "0", "1000"] ∧
      scanLoop annotationBody { tokens := ["geneA  src gene 0 1000"], buffered := none } [] =
        .ok ([], { tokens := [], buffered := none })) ∧
    (specFields "a  gene 5 9 x" = ["a", "gene", "5", "9", "x"] ∧
      split "a  gene 5 9 x" = ["a", "", "gene", "5", "9", "x"] ∧
      scanLoop annotationBody { tokens := ["a  gene 5 9 x"], buffered := none } [] =
        .ok ([⟨"a", "5", "9"⟩], { tokens := [], buffered := none })) := by
  decide

/-- C14, amended: the fields are the pieces between single spaces.  For
every list of annotation lines in which each line not beginning with `#` has
at least five space-separated fields, the annotation-parsing loop completes
and retains, in input order, exactly the lines that do not begin with `#` and
whose third space-separated field is exactly `gene`; the record of a retained
line has its first field as gene name, its fourth as start and its fifth as
end; every other line yields no record. -/
theorem c14_gene_lines_retained (lines : List String)
    (h : ∀ l ∈ lines, hasPrefix l "#" = false → 5 ≤ (split l).length)
    (buffered : Option String) :
    scanLoop annotationBody { tokens := lines, buffered := buffered } [] =
      .ok ((lines.filter
          (fun l => !hasPrefix l "#" && decide ((split l).getD 2 "" = "gene"))).map
        (fun l => ({ gene := (split l).getD 0 "", start := (split l).getD 3 "",
                     end_ := (split l).getD 4 "" } : geneStruct)),
        { tokens := buffered.toList, buffered := none }) := by
  have hloop := scanLoopFrom_append annotationBody
    (fun l => if !hasPrefix l "#" && decide ((split l).getD 2 "" = "gene") then
      [({ gene := (split l).getD 0 "", start := (split l).getD 3 "",
          end_ := (split l).getD 4 "" } : geneStruct)]
      else [])
    buffered lines [] (fun l hl a => annotationBody_ok l (h l hl) a)
  rw [flatMap_ite_eq_map_filter
    (fun l => !hasPrefix l "#" && decide ((split l).getD 2 "" = "gene"))] at hloop
  simpa [scanLoop] using hloop

/-- C14, amended, at a concrete input: a comment, a gene line, an exon line, a line
whose third field is `genes`, and a second gene line. -/
theorem c14_gene_lines_retained_witness :
    scanLoop annotationBody
        { tokens := ["#gtf", "geneA src gene 0 1000 +", "geneA src exon 0 200 +",
            "geneX src genes 1 2 +", "geneB src gene 2000 2500 -"],
          buffered := none } [] =
      .ok ([⟨"geneA", "0", "1000"⟩, ⟨"geneB", "2000", "2500"⟩],
        { tokens := [], buffered := none }) :=
  c14_gene_lines_retained
    ["#gtf", "geneA src gene 0 1000 +", "geneA src exon 0 200 +",
      "geneX src genes 1 2 +", "geneB src gene 2000 2500 -"] (by decide) none

/-! ## C15: gene lines with `end <= start` -/

/-- C15, as stated, fails: the gene line of `geneA` with start 5 and end 5 and
the gene line of `geneB` with start 9 and end 2 are both retained by the
annotation-parsing loop, and both add an entry to `genenames` and to
`genelength`, with the lengths 0 and -7. -/
theorem c15_gene_with_end_le_start_is_kept :
    scanLoop annotationBody
        { tokens := ["geneA src gene 5 5", "geneB src gene 9 2"], buffered := none } [] =
      .ok ([⟨"geneA", "5", "5"⟩, ⟨"geneB", "9", "2"⟩],
        { tokens := [], buffered := none }) ∧
    geneLengthLoop [⟨"geneA", "5", "5"⟩, ⟨"geneB", "9", "2"⟩] =
      (["geneA", "geneB"], [0, -7]) := by
  decide

/-- C15, amended: no gene line is excluded for its interval.  For every
annotation input whose lines other than comments have at least five
space-separated fields, parsing completes without a crash, every line that
does not begin with `#` and has `gene` as third field becomes a record, and
every record adds its name to `genenames` and `end - start` (in 64-bit
arithmetic) to `genelength`, whatever the sign of that difference; a record
with `end` equal to `start` adds the length 0. -/
theorem c15_every_gene_line_adds_an_entry (lines : List String)
    (h : ∀ l ∈ lines, hasPrefix l "#" = false → 5 ≤ (split l).length)
    (buffered : Option String) :
    ∃ anns,
      scanLoop annotationBody { tokens := lines, buffered := buffered } [] =
        .ok (anns, { tokens := buffered.toList, buffered := none }) ∧
      anns.length = (lines.filter
        (fun l => !hasPrefix l "#" && decide ((split l).getD 2 "" = "gene"))).length ∧
      (geneLengthLoop anns).1 = anns.map (fun g => g.gene) ∧
      (geneLengthLoop anns).2 = anns.map (fun g => wrap64 (atoi g.end_ - atoi g.start)) ∧
      (∀ g ∈ anns, atoi g.end_ = atoi g.start → (0 : Int) ∈ (geneLengthLoop anns).2) := by
  have hloop := scanLoopFrom_append annotationBody
    (fun l => if !hasPrefix l "#" && decide ((split l).getD 2 "" = "gene") then
      [({ gene := (split l).getD 0 "", start := (split l).getD 3 "",
          end_ := (split l).getD 4 "" } : geneStruct)]
      else [])
    buffered lines [] (fun l hl a => annotationBody_ok l (h l hl) a)
  rw [flatMap_ite_eq_map_filter
    (fun l => !hasPrefix l "#" && decide ((split l).getD 2 "" = "gene"))] at hloop
  refine ⟨_, by simpa [scanLoop] using hloop, by simp, ?_, ?_, ?_⟩
  · rw [geneLengthLoop_eq]
  · rw [geneLengthLoop_eq]
  · intro g hg he
    rw [geneLengthLoop_eq]
    refine List.mem_map.mpr ⟨g, hg, ?_⟩
    rw [he, sub_self]
    decide

/-- C15, amended, at a concrete input: a comment, a gene line with end equal
to start, an exon line and a gene line with end below start. -/
theorem c15_every_gene_line_adds_an_entry_witness :
    ∃ anns,
      scanLoop annotationBody
          { tokens := ["#gtf", "geneA src gene 5 5", "geneA src exon 5 5", "geneB src gene 9 2"],
            buffered := none } [] =
        .ok (anns, { tokens := [], buffered := none }) ∧
      anns.length = 2 :=
  (c15_every_gene_line_adds_an_entry
    ["#gtf", "geneA src gene 5 5", "geneA src exon 5 5", "geneB src gene 9 2"]
    (by decide) none).imp (fun _ h => ⟨h.1, h.2.1.trans (by decide)⟩)

/-! ## C16: start or end fields that are not integers -/

/-- C16, as stated, fails: the gene line of `geneA` with the start field `abc`
and the end field 1000 is retained, its start is read as 0, and it adds the
entry `geneA` to `genenames` and the length 1000 to `genelength`; so does a
line whose end field is `x`, with the length `-20`. -/
theorem c16_non_integer_field_is_kept :
    scanLoop annotationBody
        { tokens := ["geneA src gene abc 1000", "geneB src gene 20 x"], buffered := none } [] =
      .ok ([⟨"geneA", "abc", "1000"⟩, ⟨"geneB", "20", "x"⟩],
        { tokens := [], buffered := none }) ∧
    atoi "abc" = 0 ∧ atoi "x" = 0 ∧
    geneLengthLoop [⟨"geneA", "abc", "1000"⟩, ⟨"geneB", "20", "x"⟩] =
      (["geneA", "geneB"], [1000, -20]) := by
  decide

/-- C16, amended: the error of `strconv.Atoi` is discarded and the line is
kept.  Every annotation record, whatever its start and end fields hold, adds
its name to `genenames` and an entry to `genelength`, computed from the values
`strconv.Atoi` returns; a field that holds no decimal digit is read as 0, so
a record whose start field holds no digit has the length `end - 0` and one
whose end field holds no digit has the length `0 - start`. -/
theorem c16_non_integer_field_read_as_zero (anns : List geneStruct) :
    (geneLengthLoop anns).1 = anns.map (fun g => g.gene) ∧
    (geneLengthLoop anns).2.length = anns.length ∧
    (∀ s : String, (∀ c ∈ s.toList, c.isDigit = false) → atoi s = 0) ∧
    (∀ g ∈ anns, (∀ c ∈ g.start.toList, c.isDigit = false) →
      wrap64 (atoi g.end_ - 0) ∈ (geneLengthLoop anns).2) ∧
    (∀ g ∈ anns, (∀ c ∈ g.end_.toList, c.isDigit = false) →
      wrap64 (0 - atoi g.start) ∈ (geneLengthLoop anns).2) := by
  rw [geneLengthLoop_eq]
  refine ⟨rfl, by simp, atoi_no_digit, ?_, ?_⟩
  · intro g hg hs
    exact List.mem_map.mpr ⟨g, hg, by rw [atoi_no_digit g.start hs]⟩
  · intro g hg he
    exact List.mem_map.mpr ⟨g, hg, by rw [atoi_no_digit g.end_ he]⟩

/-- C16, amended, at a concrete input: the record of `geneA` with the start
field `abc` and the end field 1000. -/
theorem c16_non_integer_field_read_as_zero_witness :
    atoi "abc" = 0 ∧
    wrap64 (atoi "1000" - 0) ∈ (geneLengthLoop [⟨"geneA", "abc", "1000"⟩]).2 :=
  ⟨(c16_non_integer_field_read_as_zero [⟨"geneA", "abc", "1000"⟩]).2.2.1 "abc" (by decide),
    (c16_non_integer_field_read_as_zero [⟨"geneA", "abc", "1000"⟩]).2.2.2.1
      ⟨"geneA", "abc", "1000"⟩ (by decide) (by decide)⟩

/-! ## C17: the exit code -/

/-- C17 at a failing input: a run in which `rootCmd.Execute` returns without
error.  Nothing is printed and the process ends with `os.Exit(1)`; the call
stands after the `if`, not inside it, so the exit code is 1 for every outcome
of `Execute` and never 0. -/
theorem c17_exit_code_is_always_one :
    main none = ([], 1) ∧ (∀ executeError, (main executeError).2 = 1) ∧
    (∀ executeError, (main executeError).2 ≠ 0) := by
  refine ⟨rfl, fun _ => rfl, fun _ => ?_⟩
  show (1 : Int) ≠ 0
  decide

/-! ## C18: the table of a whole run -/

/-- C18, as stated, fails.  The alignment file has the line
`r1 0 geneA geneA 60` and, after it, a line of 65,551 bytes that starts with
`r2 0 geneA x y `; the annotation file has a gene line for `geneA` and 999,999
gene lines for `geneB`, all of length 1000.  The scanner stops at the long line
with `ErrTooLong`, the loop of line 122 then scans the 65,536 buffered bytes,
and `uniquegenes` gets the key `geneA`; the read of the first line is counted,
and the run completes with a table of 1,000,000 entries. -/
theorem c18_long_line_gives_a_table :
    ∃ table,
      analyzeFunc (fun _ ks => ks)
          (String.mk ("r1 0 geneA geneA 60".toList ++ Char.ofNat 10 ::
            ("r2 0 geneA x y ".toList ++ List.replicate 65536 'x')))
          (String.mk (List.intercalate [Char.ofNat 10]
            ("geneA src gene 0 1000".toList ::
              List.replicate 999999 "geneB src gene 0 1000".toList))) =
        .ok table ∧
      table.length = 1000000 ∧ table.head? = some ⟨"geneA", 1⟩ := by
  have hsam := alignment_run_long_line 65521 65536 (by decide) (by decide) (by decide)
  have hgtf := annotation_run_many_genes 999999
  have hscale : scaleOf (List.replicate
      ((List.replicate 999999 (⟨"geneB", "0", "1000"⟩ : geneStruct)).length + 1) 1) = 1 := by
    rw [List.length_replicate]
    unfold scaleOf
    rw [sum_replicate_one _ (by norm_num)]
    decide
  have hstages := analyzeStages_single_read ⟨"geneA", "0", "1000"⟩
    (List.replicate 999999 ⟨"geneB", "0", "1000"⟩) ⟨"geneA", "geneA"⟩ rfl (by decide) hscale
  refine ⟨((⟨"geneA", "0", "1000"⟩ :: List.replicate 999999 ⟨"geneB", "0", "1000"⟩ :
      List geneStruct)).map (fun g => ({ gene := g.gene, expressCount := 1 } : expressCount)),
    ?_, ?_, ?_⟩
  · exact (analyzeFunc_of_loops (fun _ ks => ks) _ _ _ _ _ _ _ _
      (fun _ => [(⟨"geneA", "0", "1000"⟩ : geneStruct).gene]) hsam.1 hgtf hsam.2 rfl).trans
      hstages
  · rw [List.length_map, List.length_cons, List.length_replicate]
  · rfl

/-- C18, amended: for every pair of input files in which no line of the
alignment file has `maxScanTokenSize` (65,536) bytes or more, and every order
in which the runtime visits map keys, `analyzeFunc` never produces a table
with an entry: a run that completes has the empty table; and once both files
are parsed, the table is empty when no gene line was retained, and when at
least one was retained the expression loop panics on its first iteration,
with `geneRPK` empty and the scale 0. -/
theorem c18_no_table_with_an_entry (order : Nat → List String → List String)
    (horder : ∀ i ks, (order i ks).Perm ks) (samFile gtfFile : String)
    (hshort : ∀ p ∈ splitLines samFile.toList, p.length < maxScanTokenSize) :
    (∀ table, analyzeFunc order samFile gtfFile = .ok table → table = []) ∧
    (∀ (recs : List geneAlign) (sc : Scanner) (anns : List geneStruct) (sc' : Scanner),
      scanLoop alignmentBody (newScanner samFile) [] = .ok (recs, sc) →
      scanLoop annotationBody (newScanner gtfFile) [] = .ok (anns, sc') →
        (anns = [] → analyzeFunc order samFile gtfFile = .ok []) ∧
        (anns ≠ [] →
          analyzeFunc order samFile gtfFile = .error .indexOutOfRange ∧
          rpkLoop (countingLoop (fun i => order i []) recs).geneExp
            (geneLengthLoop anns).1 (geneLengthLoop anns).2 = .ok [] ∧
          scaleOf [] = 0 ∧
          expressionBody (geneLengthLoop anns).1 [] 0 0 [] = .error .indexOutOfRange)) := by
  have hbuf : (newScanner samFile).buffered = none :=
    scanPieces_buffered_none _ hshort
  constructor
  · intro table htable
    cases hsam : scanLoop alignmentBody (newScanner samFile) [] with
    | error p => simp [analyzeFunc, hsam] at htable
    | ok res =>
      obtain ⟨recs, sc⟩ := res
      cases hgtf : scanLoop annotationBody (newScanner gtfFile) [] with
      | error p => simp [analyzeFunc, hsam, hgtf] at htable
      | ok res' =>
        obtain ⟨anns, sc'⟩ := res'
        rw [analyzeFunc_of_parsed order horder samFile gtfFile recs sc anns sc' hbuf hsam hgtf]
          at htable
        by_cases ha : anns = []
        · simp only [ha, if_true] at htable
          exact (Except.ok.inj htable).symm
        · simp [ha] at htable
  · intro recs sc anns sc' hsam hgtf
    have hrun := analyzeFunc_of_parsed order horder samFile gtfFile recs sc anns sc'
      hbuf hsam hgtf
    refine ⟨fun ha => by rw [hrun, if_pos ha],
      fun ha => ⟨by rw [hrun, if_neg ha], ?_, ?_, ?_⟩⟩
    · have hcount : countingLoop (fun i => order i []) recs =
          { countAlignment := 0, geneExp := [] } :=
        countingLoopFrom_no_keys _ (fun i => (horder i []).eq_nil) recs 0 _
      rw [hcount]
      rfl
    · decide
    · rw [geneLengthLoop_eq]
      cases anns with
      | nil => exact absurd rfl ha
      | cons g gs => simp [expressionBody]

/-- C18, amended, at a concrete input: one alignment line whose fields would
match, and one gene line; the run panics and no table is produced. -/
theorem c18_no_table_with_an_entry_witness :
    analyzeFunc (fun _ ks => ks) "r1 0 geneA geneA 60\n" "geneA src gene 0 1000\n" =
      .error .indexOutOfRange :=
  ((c18_no_table_with_an_entry (fun _ ks => ks) (fun _ _ => List.Perm.refl _)
    "r1 0 geneA geneA 60\n" "geneA src gene 0 1000\n" (by decide)).2
      [⟨"geneA", "geneA"⟩] { tokens := [], buffered := none }
      [⟨"geneA", "0", "1000"⟩] { tokens := [], buffered := none }
      (by decide) (by decide)).2 (by decide) |>.1

/-! ## C19: the second loop over the alignment scanner -/

/-- C19, as stated, fails: on the alignment file made of the line
`r1 0 geneA geneA 60` and of a line of 65,551 bytes that starts with
`r2 0 geneA x y `, the alignment-parsing loop ends when the scanner stops with
`ErrTooLong`, the loop of line 122 then runs once, on the 65,536 buffered
bytes, `uniquegenes` is the map with the key `geneA`, and the counting loop
appends an entry: `geneExp = [(geneA, 1)]` and `countAlignment = 1`. -/
theorem c19_long_line_fills_uniquegenes :
    ("r2 0 geneA x y ".toList ++ List.replicate 65536 'x').length = 65551 ∧
    ∃ recs fRead uniquegenes,
      scanLoop alignmentBody
          (newScanner (String.mk ("r1 0 geneA geneA 60".toList ++ Char.ofNat 10 ::
            ("r2 0 geneA x y ".toList ++ List.replicate 65536 'x')))) [] =
        .ok (recs, fRead) ∧
      fRead.tokens.length = 1 ∧
      scanLoop uniquegenesBody fRead [] =
        .ok (uniquegenes, { tokens := [], buffered := none }) ∧
      uniquegenes = [("geneA", "y")] ∧
      countingLoop (fun _ => uniquegenes.map (fun kv => kv.1)) recs =
        { countAlignment := 1, geneExp := [⟨"geneA", 1⟩] } := by
  have hsam := alignment_run_long_line 65521 65536 (by decide) (by decide) (by decide)
  refine ⟨?_, _, _, _, hsam.1, rfl, hsam.2, rfl, ?_⟩
  · rw [List.length_append, List.length_replicate]
    rfl
  · decide

/-- C19, amended: the loop that fills `uniquegenes` scans the scanner as the
alignment-parsing loop has left it.  For every alignment input on which that
first loop completes, the scanner then holds only what it had buffered when
`Scan` returned false, so the body of the second loop runs at most once.  If
no line of the file has `maxScanTokenSize` (65,536) bytes or more, it runs for
no line: `uniquegenes` is empty, the counting loop visits no key, appends
nothing, and ends with `geneExp` empty and `countAlignment = 0`, whatever the
alignment records are.  If the file has such a line, it runs once, on the
first `maxScanTokenSize` bytes of such a line: the second loop is one call of
its body on that text, and it panics exactly when that call does. -/
theorem c19_uniquegenes_loop_runs_at_most_once (order : Nat → List String → List String)
    (horder : ∀ i ks, (order i ks).Perm ks) (samFile : String)
    (recs : List geneAlign) (fRead : Scanner)
    (hsam : scanLoop alignmentBody (newScanner samFile) [] = .ok (recs, fRead)) :
    fRead = { tokens := (newScanner samFile).buffered.toList, buffered := none } ∧
    fRead.tokens.length ≤ 1 ∧
    ((∀ p ∈ splitLines samFile.toList, p.length < maxScanTokenSize) →
      fRead.tokens = [] ∧
      scanLoop uniquegenesBody fRead [] = .ok ([], { tokens := [], buffered := none }) ∧
      countingLoop (fun i => order i (([] : List (String × String)).map (fun kv => kv.1)))
          recs = { countAlignment := 0, geneExp := [] }) ∧
    ((∃ p ∈ splitLines samFile.toList, maxScanTokenSize ≤ p.length) →
      ∃ p ∈ splitLines samFile.toList, maxScanTokenSize ≤ p.length ∧
        fRead.tokens = [String.mk (dropCR (p.take maxScanTokenSize))] ∧
        scanLoop uniquegenesBody fRead [] =
          match uniquegenesBody (String.mk (dropCR (p.take maxScanTokenSize))) [] with
          | .error e => .error e
          | .ok uniquegenes => .ok (uniquegenes, { tokens := [], buffered := none })) := by
  have hafter := scanLoopFrom_after alignmentBody _ _ [] recs fRead hsam
  refine ⟨hafter, ?_, ?_, ?_⟩
  · rw [hafter]
    cases (newScanner samFile).buffered <;> simp
  · intro hshort
    have hbuf : (newScanner samFile).buffered = none := scanPieces_buffered_none _ hshort
    rw [hbuf] at hafter
    subst hafter
    exact ⟨rfl, rfl, countingLoopFrom_no_keys _ (fun i => (horder i []).eq_nil) recs 0 _⟩
  · intro hlong
    obtain ⟨p, hp, hlen, ht⟩ := scanPieces_buffered_some _ hlong
    have ht' : (newScanner samFile).buffered =
        some (String.mk (dropCR (p.take maxScanTokenSize))) := ht
    rw [ht'] at hafter
    subst hafter
    refine ⟨p, hp, hlen, rfl, ?_⟩
    show scanLoopFrom uniquegenesBody none
      [String.mk (dropCR (p.take maxScanTokenSize))] [] = _
    rw [scanLoopFrom]
    cases uniquegenesBody (String.mk (dropCR (p.take maxScanTokenSize))) [] <;> rfl

/-- C19, amended, at a concrete input: a header and two data lines, none of
them long. -/
theorem c19_uniquegenes_loop_runs_at_most_once_witness :
    countingLoop (fun _ => ([] : List (String × String)).map (fun kv => kv.1))
        [⟨"geneA", "geneA"⟩, ⟨"geneB", "7"⟩] =
      { countAlignment := 0, geneExp := [] } :=
  ((c19_uniquegenes_loop_runs_at_most_once (fun _ ks => ks) (fun _ _ => List.Perm.refl _)
    "@HD VN:1.0\nr1 0 geneA geneA 60\nr2 0 geneB 7 60\n"
    [⟨"geneA", "geneA"⟩, ⟨"geneB", "7"⟩] { tokens := [], buffered := none }
    (by decide)).2.2.1 (by decide)).2.2

/-! ## C20: `express` is a running total -/

/-- C20: for every list of alignment records and every set of distinct keys of
`uniquegenes`, iterated in any order, the entry at position `k` of `geneExp`
(counted from 1) has `express = k`; hence the values of `express` increase
strictly along `geneExp`, and the last entry carries `len(geneExp)`, which is
the final `countAlignment`. -/
theorem c20_express_is_running_total (keys : List String) (hk : keys.Nodup)
    (iter : Nat → List String) (hi : ∀ i, (iter i).Perm keys)
    (recs : List geneAlign) :
    (∀ (k : Nat) (e : geneExpression), (countingLoop iter recs).geneExp[k]? = some e →
      e.express = (k : Int) + 1) ∧
    (∀ (i j : Nat) (a b : geneExpression), i < j →
      (countingLoop iter recs).geneExp[i]? = some a →
      (countingLoop iter recs).geneExp[j]? = some b → a.express < b.express) ∧
    (∀ e, (countingLoop iter recs).geneExp.getLast? = some e →
      e.express = ((countingLoop iter recs).geneExp.length : Int)) ∧
    (countingLoop iter recs).countAlignment =
      ((countingLoop iter recs).geneExp.length : Int) := by
  have hrun : ((countingLoop iter recs).countAlignment =
        ((countingLoop iter recs).geneExp.length : Int)) ∧
      ∀ (k : Nat) (e : geneExpression), (countingLoop iter recs).geneExp[k]? = some e →
        e.express = (k : Int) + 1 := by
    unfold countingLoop
    rw [countingLoopFrom_sched keys hk iter hi]
    exact foldl_countRecord_running keys hk recs _ (by simp) (by simp)
  refine ⟨hrun.2, ?_, ?_, hrun.1⟩
  · intro i j a b hij ha hb
    rw [hrun.2 i a ha, hrun.2 j b hb]
    omega
  · intro e he
    rw [List.getLast?_eq_getElem?] at he
    have hpos : 0 < (countingLoop iter recs).geneExp.length := by
      by_contra hn
      have hz : (countingLoop iter recs).geneExp.length = 0 := by omega
      rw [List.getElem?_eq_none (by omega)] at he
      exact absurd he (by simp)
    rw [hrun.2 _ e he]
    omega

/-- C20 at a concrete input: two keys iterated in alternating order and four
records, three of them matched. -/
theorem c20_express_is_running_total_witness :
    (countingLoop (fun i => if i % 2 = 0 then ["a", "b"] else ["b", "a"])
        [⟨"x", "b"⟩, ⟨"a", "7"⟩, ⟨"y", "a"⟩, ⟨"z", "b"⟩]).countAlignment =
      ((countingLoop (fun i => if i % 2 = 0 then ["a", "b"] else ["b", "a"])
        [⟨"x", "b"⟩, ⟨"a", "7"⟩, ⟨"y", "a"⟩, ⟨"z", "b"⟩]).geneExp.length : Int) :=
  (c20_express_is_running_total ["a", "b"] (by decide)
    (fun i => if i % 2 = 0 then ["a", "b"] else ["b", "a"])
    (by intro i; by_cases h : i % 2 = 0 <;> simp [h]; decide)
    [⟨"x", "b"⟩, ⟨"a", "7"⟩, ⟨"y", "a"⟩, ⟨"z", "b"⟩]).2.2.2

end ExpressionAnalyzer
